import Mathlib

/-!
# Relay and channel actor of `relay/relay.go`

A shallow embedding of the relay registry (`Relay`) and of the per-channel
actor (`channel`) together with the properties of their event handling.

Modelling conventions

* A Go `map` is a `GoMap`: a list of key/value entries whose keys are pairwise
  distinct.  Go leaves the iteration order of a map unspecified; the embedding
  iterates in the order of the entry list and every property below is stated
  independently of that order (membership, counts, lengths).
* A buffered Go `chan` is the list of its queued values (oldest first) and a
  send on a full queue blocks, which is the result `none`.
* The router (`net.Router`) is outside of the repository sources; it is
  represented by the log of the `Send` calls issued on it.
* A pointer to a `channel` held by the registry is represented by the
  registry entry itself: a method that mutates the channel writes the new
  value back under the channel id.
* The scope of the lock `channelsMut` is read off the sequence of actions of
  one call of a method (lock, unlock, send on the router, send on a queue),
  given by the functions `ProcessTrace`, `ReceiveTrace` and `StopTrace`.
-/

namespace relay

/-! ## Go maps -/

/-- A Go map with keys `κ` and values `ν`: an entry list with distinct keys. -/
structure GoMap (κ : Type) (ν : Type) where
  entries : List (κ × ν)
  nodup : (entries.map Prod.fst).Nodup

namespace GoMap

variable {κ ν : Type} [DecidableEq κ]

/-- The result of `make(map[κ]ν)`. -/
def empty : GoMap κ ν := ⟨[], List.nodup_nil⟩

/-- The keys of the map, in iteration order. -/
def keys (m : GoMap κ ν) : List κ := m.entries.map Prod.fst

/-- The Go builtin `len(m)`. -/
def len (m : GoMap κ ν) : Nat := m.entries.length

/-- The lookup `v, ok := m[k]`, with `none` for `ok = false`. -/
def get? (m : GoMap κ ν) (k : κ) : Option ν :=
  (m.entries.find? (fun e => decide (e.1 = k))).map Prod.snd

/-- The flag `ok` of `_, ok := m[k]`. -/
def contains (m : GoMap κ ν) (k : κ) : Bool := (m.get? k).isSome

/-- The Go builtin `delete(m, k)`. -/
def delete (m : GoMap κ ν) (k : κ) : GoMap κ ν :=
  ⟨m.entries.filter (fun e => decide (e.1 ≠ k)),
    m.nodup.sublist (List.filter_sublist m.entries |>.map Prod.fst)⟩

/-- The assignment `m[k] = v`: replaces the value of a present key, otherwise
adds a new entry. -/
def set (m : GoMap κ ν) (k : κ) (v : ν) : GoMap κ ν :=
  if h : k ∈ m.entries.map Prod.fst then
    ⟨m.entries.map (fun e => if e.1 = k then (k, v) else e), by
      have hk : ∀ l : List (κ × ν),
          (l.map (fun e => if e.1 = k then (k, v) else e)).map Prod.fst = l.map Prod.fst := by
        intro l
        induction l with
        | nil => rfl
        | cons e es ih =>
          simp only [List.map_cons, ih]
          by_cases h : e.1 = k
          · simp [h]
          · simp [h]
      rw [hk]; exact m.nodup⟩
  else
    ⟨m.entries ++ [(k, v)], by
      rw [List.map_append, List.nodup_append]
      refine ⟨m.nodup, by simp, ?_⟩
      intro a ha hb
      simp at hb
      subst hb
      exact h ha⟩

instance [DecidableEq ν] : DecidableEq (GoMap κ ν) := fun a b =>
  if h : a.entries = b.entries then
    isTrue (by cases a; cases b; cases h; rfl)
  else
    isFalse (fun e => h (e ▸ rfl))

end GoMap

/-! ## Message protocol -/

/-- A peer address, the string type `net.Address`. -/
abbrev Address := String

/-- A byte payload (`[]byte`); the nil slice is the empty list. -/
abbrev Blob := List Nat

/-- Modelled from the spec: the generated enumeration `RelayMessage_Type`, the
tag of the union of JOIN, LEAVE, INGRESS, EGRESS and JOIN_RESPONSE. -/
inductive RelayMessage_Type where
  | RelayMessage_JOIN
  | RelayMessage_LEAVE
  | RelayMessage_INGRESS
  | RelayMessage_EGRESS
  | RelayMessage_JOIN_RESPONSE
  deriving DecidableEq

/-- Modelled from the spec: the generated enumeration `JoinResponse_Status`,
status OK or FAILURE. -/
inductive JoinResponse_Status where
  | JoinResponse_OK
  | JoinResponse_FAILURE
  deriving DecidableEq

open RelayMessage_Type JoinResponse_Status

/-- Modelled from the spec: the generated message `JoinResponse`, a status
plus an optional human-readable reason. -/
structure JoinResponse where
  Status : JoinResponse_Status := JoinResponse_OK
  Reason : String := ""
  deriving DecidableEq

/-- Modelled from the spec: the generated message `Ingress`, a byte payload. -/
structure Ingress where
  Blob : relay.Blob := []
  deriving DecidableEq

/-- Modelled from the spec: the generated message `Egress`, a byte payload. -/
structure Egress where
  Blob : relay.Blob := []
  deriving DecidableEq

/-- Modelled from the spec: the generated message `RelayMessage`, a channel id,
a type tag and the optional sub-messages used by `relay.go`. -/
structure RelayMessage where
  Channel : String := ""
  Type_ : RelayMessage_Type := RelayMessage_JOIN
  JoinResponse : Option relay.JoinResponse := none
  Ingress : Option relay.Ingress := none
  Egress : Option relay.Egress := none
  deriving DecidableEq

/-- The generated getter `GetChannel`. -/
def RelayMessage.GetChannel (m : RelayMessage) : String := m.Channel

/-- The generated getter `GetType`. -/
def RelayMessage.GetType (m : RelayMessage) : RelayMessage_Type := m.Type_

/-- The generated getter `GetIngress` (a possibly nil pointer). -/
def RelayMessage.GetIngress (m : RelayMessage) : Option relay.Ingress := m.Ingress

/-- The generated getter `GetBlob` on a possibly nil `*Ingress`. -/
def Ingress.GetBlob : Option relay.Ingress → relay.Blob
  | none => []
  | some i => i.Blob

/-- A `net.Message` handed to `Relay.Process`: a `*RelayMessage` or a value of
another type. -/
inductive Message where
  | relayMessage (m : RelayMessage)
  | unknown
  deriving DecidableEq

/-- An `event.Event` handed to `Relay.Receive`: the connection-down event
`*net.EventDown` with its address, or an event with another name. -/
inductive Event where
  | EventDown (addr : Address)
  | unknown (name : String)
  deriving DecidableEq

/-- The wrapper `messageInfo`: the sender of a message and the message. -/
structure messageInfo where
  address : Address
  msg : Option Ingress
  deriving DecidableEq

/-! ## Constants -/

/-- ChannelQueueSize represents how large the queue of message for one
channel is. -/
def ChannelQueueSize : Nat := 100

/-- ChannelSize represents the maximum number of participants in a channel. -/
def ChannelSize : Nat := 30

/-- MaxChannel represents the maximum number of channels allowed for this
relay. -/
def MaxChannel : Nat := 50

/-! ## Transport boundary -/

/-- Modelled from the spec: the router `net.Router`, of which the relay uses
`Send(address, message) error` and `Stop`.  `sent` logs every `Send` call in
order, `outcomes` holds the results of the forthcoming `Send` calls (`true`
is an error, and a call beyond the list succeeds), `stopped` records `Stop`. -/
structure Router where
  sent : List (Address × RelayMessage) := []
  outcomes : List Bool := []
  stopped : Bool := false
  deriving DecidableEq

/-- Modelled from the spec: `Send(address, message) error`, a best-effort
unicast; the second component of the result is `true` for an error. -/
def Router.Send (rt : Router) (dest : Address) (msg : RelayMessage) : Router × Bool :=
  ({ rt with sent := rt.sent ++ [(dest, msg)], outcomes := rt.outcomes.tail },
    rt.outcomes.headD false)

/-- Modelled from the spec: `Stop` of the router. -/
def Router.Stop (rt : Router) : Router := { rt with stopped := true }

/-! ## Buffered Go channels -/

/-- The send `q <- x` on a buffered Go channel of capacity `cap` holding the
queue `q`: `none` when the queue is full (the sender blocks). -/
def chanSend {α : Type} (cap : Nat) (q : List α) (x : α) : Option (List α) :=
  if q.length < cap then some (q ++ [x]) else none

/-- The builtin `close` on a Go channel whose closed flag is `closed`: `none`
is the run-time panic of closing a closed channel. -/
def chanClose (closed : Bool) : Option Bool :=
  if closed then none else some true

/-! ## Data model -/

/-- The struct `channel`.  The back pointer `relay` is passed to the methods
as an argument, the never used `finishedConfirmed` is left out, `finished`
tells whether the stop signal has been closed and `returned` tells whether
the goroutine `process` of this channel has returned. -/
structure channel where
  id : String
  incoming : List messageInfo := []
  join : List Address := []
  leave : List Address := []
  finished : Bool := false
  clients : GoMap Address Bool := GoMap.empty
  done : Bool := false
  returned : Bool := false
  deriving DecidableEq

/-- The struct `Relay`: the router and the registry of channels. -/
structure Relay where
  router : Router := {}
  channels : GoMap String channel := GoMap.empty
  deriving DecidableEq

/-- The participant set of a channel: the keys of `clients`. -/
def channel.participants (ch : channel) : List Address := ch.clients.keys

/-! ## Channel actor -/

/-- The function `newChannel`: a channel with empty queues and no client,
whose goroutine `process` has been launched. -/
def newChannel (id : String) : channel := { id := id }

/-- The method `channel.newMessage`: queues the message for the goroutine of
the channel; `none` when the queue is full. -/
def channel.newMessage (ch : channel) (sender : Address) (incoming : RelayMessage) :
    Option channel :=
  match incoming.GetType with
  | RelayMessage_JOIN =>
    (chanSend ChannelQueueSize ch.join sender).map (fun q => { ch with join := q })
  | RelayMessage_LEAVE =>
    (chanSend ChannelQueueSize ch.leave sender).map (fun q => { ch with leave := q })
  | RelayMessage_INGRESS =>
    (chanSend ChannelQueueSize ch.incoming ⟨sender, incoming.GetIngress⟩).map
      (fun q => { ch with incoming := q })
  | _ => some ch

/-- The method `channel.setDone`. -/
def channel.setDone (ch : channel) : channel := { ch with done := true }

/-- The method `channel.isDone`. -/
def channel.isDone (ch : channel) : Bool := ch.done

/-- The method `channel.stop`: `none` is the panic of a double close. -/
def channel.stop (ch : channel) : Option channel :=
  if ch.isDone then some ch
  else (chanClose ch.finished).map (fun f => { ch.setDone with finished := f })

/-- The method `Relay.deleteChannel`. -/
def Relay.deleteChannel (r : Relay) (id : String) : Relay :=
  { r with channels := r.channels.delete id }

/-- The method `channel.addClient`, run on the relay `r` of the channel. -/
def channel.addClient (r : Relay) (ch : channel) (client : Address) : Relay × channel :=
  let ok := ch.clients.contains client
  let res : channel × JoinResponse :=
    if ok then
      (ch, { Status := JoinResponse_OK })
    else if ch.clients.len < ChannelSize then
      ({ ch with clients := ch.clients.set client true }, { Status := JoinResponse_OK })
    else
      (ch, { Status := JoinResponse_FAILURE, Reason := "channel: can't join a full channel" })
  let snd := r.router.Send client
    { Channel := ch.id, Type_ := RelayMessage_JOIN_RESPONSE, JoinResponse := some res.2 }
  ({ r with router := snd.1 }, res.1)

/-- The loop `for c := range clients` of `channel.process`: sends `rm` to
every client other than `addr`, whatever the result of each send. -/
def channel.rangeClients (rt : Router) (addr : Address) (rm : RelayMessage) :
    List Address → Router
  | [] => rt
  | c :: cs =>
    if c = addr then channel.rangeClients rt addr rm cs
    else channel.rangeClients (rt.Send c rm).1 addr rm cs

/-- A value received by the `select` of `channel.process`. -/
inductive Received where
  | finished
  | join (addr : Address)
  | leave (addr : Address)
  | incoming (info : messageInfo)
  deriving DecidableEq

/-- One iteration of the loop of `channel.process`, for the value received by
its `select`; `clients` of the source is an alias of `ch.clients`. -/
def channel.processCase (r : Relay) (ch : channel) : Received → Relay × channel
  | .finished => (r, { ch with returned := true })
  | .join addr => ch.addClient r addr
  | .leave addr =>
    let ch1 : channel := { ch with clients := ch.clients.delete addr }
    if ch1.clients.len = 0 then
      (r.deleteChannel ch1.id, { ch1.setDone with returned := true })
    else
      (r, ch1)
  | .incoming info =>
    let ingress := info.msg
    let addr := info.address
    let ok := ch.clients.contains addr
    if !ok then
      (r, ch)
    else
      let rm : RelayMessage :=
        { Channel := ch.id, Type_ := RelayMessage_EGRESS,
          Egress := some { Blob := Ingress.GetBlob ingress } }
      ({ r with router := channel.rangeClients r.router addr rm ch.clients.keys }, ch)

/-- The method `channel.process`: the loop run on the sequence of values its
`select` receives, until the goroutine returns. -/
def channel.process (r : Relay) (ch : channel) : List Received → Relay × channel
  | [] => (r, ch)
  | e :: es =>
    let res := ch.processCase r e
    if res.2.returned then res else channel.process res.1 res.2 es

/-- A case of the `select` of `channel.process`. -/
inductive SelectCase where
  | finished
  | join
  | leave
  | incoming
  deriving DecidableEq

/-- The receive of one case of the `select`: the value received and the
channel with that value taken off its queue; `none` when the case is not
ready. -/
def channel.select (ch : channel) : SelectCase → Option (Received × channel)
  | .finished => if ch.finished then some (.finished, ch) else none
  | .join =>
    match ch.join with
    | [] => none
    | a :: q => some (.join a, { ch with join := q })
  | .leave =>
    match ch.leave with
    | [] => none
    | a :: q => some (.leave a, { ch with leave := q })
  | .incoming =>
    match ch.incoming with
    | [] => none
    | i :: q => some (.incoming i, { ch with incoming := q })

/-! ## Relay registry -/

/-- The write through the pointer the registry holds for `id`: the entry is
replaced when the id is still registered. -/
def Relay.store (r : Relay) (id : String) (ch : channel) : Relay :=
  if r.channels.contains id then { r with channels := r.channels.set id ch } else r

/-- The method `Relay.Process`; `none` when the queue of the channel is full. -/
def Relay.Process (r : Relay) (sender : Address) (msg : Message) : Option Relay :=
  match msg with
  | .relayMessage m =>
    let id := m.GetChannel
    if id = "" then some r
    else
      match r.channels.get? id with
      | some ch => (ch.newMessage sender m).map (fun ch1 => r.store id ch1)
      | none =>
        if r.channels.len > MaxChannel then
          some { r with router := (r.router.Send sender
            { Type_ := RelayMessage_JOIN_RESPONSE,
              JoinResponse := some
                { Status := JoinResponse_FAILURE, Reason := "too many channels" } }).1 }
        else
          let ch := newChannel id
          let r1 : Relay := { r with channels := r.channels.set id ch }
          (ch.newMessage sender m).map (fun ch1 => r1.store id ch1)
  | .unknown => some r

/-- One iteration of the goroutine `process` launched by `newChannel` for the
channel registered under `id`, taking the case `c` of its `select`; `none`
when there is no such running goroutine or the case is not ready. -/
def Relay.schedule (r : Relay) (id : String) (c : SelectCase) : Option Relay :=
  match r.channels.get? id with
  | none => none
  | some ch =>
    if ch.returned then none
    else
      match ch.select c with
      | none => none
      | some (ev, ch1) =>
        let res := ch1.processCase r ev
        some (res.1.store id res.2)

/-- The loop of `Relay.Stop` over the channels with the given ids. -/
def Relay.stopChannels (r : Relay) : List String → Option Relay
  | [] => some r
  | id :: ids =>
    match r.channels.get? id with
    | none => Relay.stopChannels r ids
    | some ch =>
      match ch.stop with
      | none => none
      | some ch1 => Relay.stopChannels (r.store id ch1) ids

/-- The method `Relay.Stop`; `none` is a panic. -/
def Relay.Stop (r : Relay) : Option Relay :=
  Relay.stopChannels { r with router := r.router.Stop } r.channels.keys

/-- The loop of `Relay.Receive` over the channels with the given ids. -/
def Relay.leaveChannels (r : Relay) (addr : Address) : List String → Option Relay
  | [] => some r
  | id :: ids =>
    match r.channels.get? id with
    | none => Relay.leaveChannels r addr ids
    | some ch =>
      match ch.newMessage addr { Channel := id, Type_ := RelayMessage_LEAVE } with
      | none => none
      | some ch1 => Relay.leaveChannels (r.store id ch1) addr ids

/-- The method `Relay.Receive`; `none` when a queue is full. -/
def Relay.Receive (r : Relay) (e : Event) : Option Relay :=
  match e with
  | .EventDown addr => Relay.leaveChannels r addr r.channels.keys
  | .unknown _ => some r

/-- The function `NewRelay`. -/
def NewRelay (rt : Router) : Relay := { router := rt }

/-! ## Runs of the relay and of a channel -/

/-- The loop `for id, ch := range r.channels` with a body `f` that mutates
the channel, over the channels with the given ids; `none` when a body does
not complete. -/
def Relay.rangeChannels (f : String → channel → Option channel) (r : Relay) :
    List String → Option Relay
  | [] => some r
  | id :: ids =>
    match r.channels.get? id with
    | none => Relay.rangeChannels f r ids
    | some ch =>
      match f id ch with
      | none => none
      | some ch1 => Relay.rangeChannels f (r.store id ch1) ids

/-- A step of the relay: a call of one of its methods or one iteration of
the goroutine of a registered channel. -/
inductive RelayStep where
  | Process (sender : Address) (msg : Message)
  | deleteChannel (id : String)
  | schedule (id : String) (c : SelectCase)
  | Receive (e : Event)
  | Stop
  deriving DecidableEq

/-- The effect of one step; `none` when the step does not complete. -/
def Relay.step (r : Relay) : RelayStep → Option Relay
  | .Process sender msg => r.Process sender msg
  | .deleteChannel id => some (r.deleteChannel id)
  | .schedule id c => r.schedule id c
  | .Receive e => r.Receive e
  | .Stop => r.Stop

/-- The effect of a sequence of steps. -/
def Relay.run (r : Relay) : List RelayStep → Option Relay
  | [] => some r
  | s :: ss =>
    match r.step s with
    | none => none
    | some r1 => Relay.run r1 ss

/-- An operation on one channel: a call of `stop` or one iteration of the
loop of `process` for a received value. -/
inductive ChannelOp where
  | stop
  | receive (e : Received)
  deriving DecidableEq

/-- The effect of a sequence of operations on a channel; an iteration is
skipped once the goroutine has returned, and `none` is the panic of a double
close. -/
def channel.runOps (r : Relay) (ch : channel) : List ChannelOp → Option (Relay × channel)
  | [] => some (r, ch)
  | .stop :: ops =>
    match ch.stop with
    | none => none
    | some ch1 => channel.runOps r ch1 ops
  | .receive e :: ops =>
    if ch.returned then channel.runOps r ch ops
    else channel.runOps (ch.processCase r e).1 (ch.processCase r e).2 ops

/-- The relay `r` with a router whose forthcoming `Send` calls have the
results `o` (`true` is an error). -/
def Relay.withOutcomes (r : Relay) (o : List Bool) : Relay :=
  { r with router := { r.router with outcomes := o } }

/-! ## The registry lock -/

/-- An action of a method of the relay that matters for the scope of the
lock `channelsMut`: taking and releasing the lock, a `Send` on the router, a
send on a queue of the channel `id` in `newMessage`, `Stop` of the router and
the close of the stop signal of the channel `id`. -/
inductive Action where
  | Lock
  | Unlock
  | Send (dest : Address) (msg : RelayMessage)
  | Enqueue (id : String)
  | RouterStop
  | Close (id : String)
  deriving DecidableEq

/-- Whether the action hands a message over: a `Send` on the router or a
send on a queue of a channel. -/
def Action.isTransfer : Action → Bool
  | .Send _ _ => true
  | .Enqueue _ => true
  | _ => false

/-- The `Send` call of an action, if it is one. -/
def Action.sendOf : Action → Option (Address × RelayMessage)
  | .Send dest msg => some (dest, msg)
  | _ => none

/-- The actions of `channel.newMessage`, in order. -/
def channel.newMessageTrace (ch : channel) (incoming : RelayMessage) : List Action :=
  match incoming.GetType with
  | RelayMessage_JOIN => [.Enqueue ch.id]
  | RelayMessage_LEAVE => [.Enqueue ch.id]
  | RelayMessage_INGRESS => [.Enqueue ch.id]
  | _ => []

/-- The actions of a completed call of `Relay.Process`, in order: the lock is
taken first and released by the deferred `Unlock` on return. -/
def Relay.ProcessTrace (r : Relay) (sender : Address) (msg : Message) : List Action :=
  [.Lock] ++
  (match msg with
   | .relayMessage m =>
     let id := m.GetChannel
     if id = "" then []
     else
       match r.channels.get? id with
       | some ch => ch.newMessageTrace m
       | none =>
         if r.channels.len > MaxChannel then
           [.Send sender
             { Type_ := RelayMessage_JOIN_RESPONSE,
               JoinResponse := some
                 { Status := JoinResponse_FAILURE, Reason := "too many channels" } }]
         else (newChannel id).newMessageTrace m
   | .unknown => []) ++
  [.Unlock]

/-- The actions of a completed call of `Relay.Receive`, in order. -/
def Relay.ReceiveTrace (r : Relay) (e : Event) : List Action :=
  match e with
  | .unknown _ => []
  | .EventDown _ =>
    [.Lock] ++
    r.channels.entries.flatMap
      (fun p => p.2.newMessageTrace { Channel := p.1, Type_ := RelayMessage_LEAVE }) ++
    [.Unlock]

/-- The actions of `channel.stop`, in order. -/
def channel.stopTrace (ch : channel) : List Action :=
  if ch.isDone then [] else [.Close ch.id]

/-- The actions of a completed call of `Relay.Stop`, in order. -/
def Relay.StopTrace (r : Relay) : List Action :=
  [.RouterStop, .Lock] ++ r.channels.entries.flatMap (fun p => p.2.stopTrace) ++ [.Unlock]

/-- The actions of a trace that take place while the lock is held; `held`
tells whether the lock is held at the start. -/
def underLock : Bool → List Action → List Action
  | _, [] => []
  | _, .Lock :: t => underLock true t
  | _, .Unlock :: t => underLock false t
  | held, a :: t => if held then a :: underLock held t else underLock held t

/-- The property of a trace that no `Send` on the router and no send on a
queue of a channel takes place while the lock is held. -/
def noTransferUnderLock (t : List Action) : Bool :=
  (underLock false t).all (fun a => !a.isTransfer)

/-! ## Concrete states -/

/-- The channel "room1" after the joins of A and B, on a relay without any
registered channel. -/
def roomAB : channel :=
  (channel.process {} (newChannel "room1") [.join "A", .join "B"]).2

/-- Thirty distinct addresses. -/
def thirtyAddresses : List Address :=
  ["p01", "p02", "p03", "p04", "p05", "p06", "p07", "p08", "p09", "p10",
   "p11", "p12", "p13", "p14", "p15", "p16", "p17", "p18", "p19", "p20",
   "p21", "p22", "p23", "p24", "p25", "p26", "p27", "p28", "p29", "p30"]

/-- The channel "full" after the joins of the thirty addresses. -/
def fullRoom : channel :=
  (channel.process {} (newChannel "full") (thirtyAddresses.map Received.join)).2

/-- The relay in which the channel "room1" of A and B is registered. -/
def relayAB : Relay := { channels := GoMap.empty.set "room1" roomAB }

/-- The channel "room1" with the single participant B. -/
def roomB : channel := (roomAB.processCase relayAB (.leave "A")).2

/-- Fifty distinct channel ids. -/
def fiftyIds : List String :=
  ["c01", "c02", "c03", "c04", "c05", "c06", "c07", "c08", "c09", "c10",
   "c11", "c12", "c13", "c14", "c15", "c16", "c17", "c18", "c19", "c20",
   "c21", "c22", "c23", "c24", "c25", "c26", "c27", "c28", "c29", "c30",
   "c31", "c32", "c33", "c34", "c35", "c36", "c37", "c38", "c39", "c40",
   "c41", "c42", "c43", "c44", "c45", "c46", "c47", "c48", "c49", "c50"]

/-- The relay reached from a new relay by the dispatch of a JOIN of address
"A" for each of the fifty ids. -/
def fiftyChannels : Relay :=
  fiftyIds.foldl
    (fun r id =>
      (r.Process "A" (.relayMessage { Channel := id, Type_ := RelayMessage_JOIN })).getD r)
    (NewRelay {})

/-- The dispatch of a JOIN of address "A" for each of fifty-one ids. -/
def fiftyOneJoins : List RelayStep :=
  (fiftyIds ++ ["c51"]).map
    (fun id => RelayStep.Process "A" (.relayMessage { Channel := id, Type_ := RelayMessage_JOIN }))

/-- The relay reached from a new relay by the fifty-one dispatches. -/
def fiftyOneChannels : Relay := ((NewRelay {}).run fiftyOneJoins).getD {}

/-! ## Facts about Go maps -/

namespace GoMap

set_option linter.unusedSectionVars false

variable {κ ν : Type} [DecidableEq κ]

theorem eq_of_entries {a b : GoMap κ ν} (h : a.entries = b.entries) : a = b := by
  cases a; cases b; cases h; rfl

theorem len_eq_keys_length (m : GoMap κ ν) : m.len = m.keys.length := by
  simp [len, keys]

theorem nodup_keys (m : GoMap κ ν) : m.keys.Nodup := m.nodup

theorem find_isSome_iff (l : List (κ × ν)) (k : κ) :
    (l.find? (fun e => decide (e.1 = k))).isSome = true ↔ k ∈ l.map Prod.fst := by
  induction l with
  | nil => simp
  | cons e es ih =>
    by_cases h : e.1 = k
    · simp [List.find?_cons, h]
    · have h2 : ¬ k = e.1 := fun x => h x.symm
      simp only [List.find?_cons, h, decide_False, List.map_cons, List.mem_cons, h2, false_or]
      exact ih

theorem contains_iff (m : GoMap κ ν) (k : κ) : m.contains k = true ↔ k ∈ m.keys := by
  unfold contains get? keys
  rw [Option.isSome_map']
  exact find_isSome_iff m.entries k

theorem get?_eq_none_iff (m : GoMap κ ν) (k : κ) : m.get? k = none ↔ k ∉ m.keys := by
  rw [← contains_iff]
  unfold contains
  cases m.get? k <;> simp

theorem keys_delete (m : GoMap κ ν) (k : κ) :
    (m.delete k).keys = m.keys.filter (fun a => decide (a ≠ k)) := by
  unfold delete keys
  simp only [List.filter_map]
  rfl

theorem mem_keys_delete (m : GoMap κ ν) (k a : κ) :
    a ∈ (m.delete k).keys ↔ a ∈ m.keys ∧ a ≠ k := by
  rw [keys_delete]
  simp

theorem delete_of_not_mem (m : GoMap κ ν) (k : κ) (h : k ∉ m.keys) : m.delete k = m := by
  apply eq_of_entries
  unfold delete
  simp only
  rw [List.filter_eq_self]
  intro e he
  have : e.1 ∈ m.keys := List.mem_map_of_mem Prod.fst he
  simp only [ne_eq, decide_eq_true_eq]
  intro hk
  exact h (hk ▸ this)

theorem len_delete_le (m : GoMap κ ν) (k : κ) : (m.delete k).len ≤ m.len := by
  unfold delete len
  exact List.length_filter_le _ _

theorem get?_delete_self (m : GoMap κ ν) (k : κ) : (m.delete k).get? k = none := by
  rw [get?_eq_none_iff, mem_keys_delete]
  simp

theorem find_filter_ne (l : List (κ × ν)) (k a : κ) (h : a ≠ k) :
    (l.filter (fun e => decide (e.1 ≠ k))).find? (fun e => decide (e.1 = a)) =
      l.find? (fun e => decide (e.1 = a)) := by
  induction l with
  | nil => rfl
  | cons e es ih =>
    by_cases h1 : e.1 = k
    · have h2 : ¬ e.1 = a := fun x => h (x.symm.trans h1)
      rw [List.filter_cons_of_neg (by simpa using h1), List.find?_cons_of_neg _ (by simpa using h2)]
      exact ih
    · rw [List.filter_cons_of_pos (by simpa using h1)]
      by_cases h3 : e.1 = a
      · rw [List.find?_cons_of_pos _ (by simpa using h3), List.find?_cons_of_pos _ (by simpa using h3)]
      · rw [List.find?_cons_of_neg _ (by simpa using h3), List.find?_cons_of_neg _ (by simpa using h3)]
        exact ih

theorem get?_delete_ne (m : GoMap κ ν) (k a : κ) (h : a ≠ k) :
    (m.delete k).get? a = m.get? a := by
  unfold delete get?
  simp only
  rw [find_filter_ne m.entries k a h]

theorem find_replace_self (l : List (κ × ν)) (k : κ) (v : ν) (h : k ∈ l.map Prod.fst) :
    ((l.map (fun e => if e.1 = k then (k, v) else e)).find? (fun e => decide (e.1 = k))).map
      Prod.snd = some v := by
  induction l with
  | nil => simp at h
  | cons e es ih =>
    by_cases h1 : e.1 = k
    · rw [List.map_cons, if_pos h1, List.find?_cons_of_pos _ (by simp)]
      rfl
    · have h2 : k ∈ es.map Prod.fst := by
        rw [List.map_cons, List.mem_cons] at h
        rcases h with h | h
        · exact absurd h.symm h1
        · exact h
      rw [List.map_cons, if_neg h1, List.find?_cons_of_neg _ (by simpa using h1)]
      exact ih h2

theorem find_replace_ne (l : List (κ × ν)) (k a : κ) (v : ν) (h : a ≠ k) :
    (l.map (fun e => if e.1 = k then (k, v) else e)).find? (fun e => decide (e.1 = a)) =
      l.find? (fun e => decide (e.1 = a)) := by
  have h' : ¬ k = a := fun x => h x.symm
  induction l with
  | nil => rfl
  | cons e es ih =>
    by_cases h1 : e.1 = k
    · have h2 : ¬ e.1 = a := fun x => h' (h1.symm.trans x)
      rw [List.map_cons, if_pos h1, List.find?_cons_of_neg _ (by simpa using h'),
        List.find?_cons_of_neg _ (by simpa using h2)]
      exact ih
    · rw [List.map_cons, if_neg h1]
      by_cases h3 : e.1 = a
      · rw [List.find?_cons_of_pos _ (by simpa using h3), List.find?_cons_of_pos _ (by simpa using h3)]
      · rw [List.find?_cons_of_neg _ (by simpa using h3), List.find?_cons_of_neg _ (by simpa using h3)]
        exact ih

theorem entries_set_of_not_mem (m : GoMap κ ν) (k : κ) (v : ν) (h : k ∉ m.keys) :
    (m.set k v).entries = m.entries ++ [(k, v)] := by
  unfold set
  have h1 : k ∉ m.entries.map Prod.fst := h
  simp [h1]

theorem keys_set_of_not_mem (m : GoMap κ ν) (k : κ) (v : ν) (h : k ∉ m.keys) :
    (m.set k v).keys = m.keys ++ [k] := by
  unfold keys
  rw [entries_set_of_not_mem m k v h]
  simp

theorem len_set_of_not_mem (m : GoMap κ ν) (k : κ) (v : ν) (h : k ∉ m.keys) :
    (m.set k v).len = m.len + 1 := by
  unfold len
  rw [entries_set_of_not_mem m k v h]
  simp

theorem keys_set_of_mem (m : GoMap κ ν) (k : κ) (v : ν) (h : k ∈ m.keys) :
    (m.set k v).keys = m.keys := by
  have h1 : k ∈ m.entries.map Prod.fst := h
  have hk : ∀ l : List (κ × ν),
      (l.map (fun e => if e.1 = k then (k, v) else e)).map Prod.fst = l.map Prod.fst := by
    intro l
    induction l with
    | nil => rfl
    | cons e es ih =>
      simp only [List.map_cons, ih]
      by_cases h : e.1 = k
      · simp [h]
      · simp [h]
  unfold set keys
  simp only [h1, dite_true]
  exact hk m.entries

theorem len_set_of_mem (m : GoMap κ ν) (k : κ) (v : ν) (h : k ∈ m.keys) :
    (m.set k v).len = m.len := by
  rw [len_eq_keys_length, len_eq_keys_length, keys_set_of_mem m k v h]

theorem get?_set_self (m : GoMap κ ν) (k : κ) (v : ν) : (m.set k v).get? k = some v := by
  by_cases h : k ∈ m.entries.map Prod.fst
  · unfold set get?
    simp only [h, dite_true]
    exact find_replace_self m.entries k v h
  · unfold set get?
    simp only [h, dite_false]
    have h3 : List.find? (fun e => decide (e.1 = k)) m.entries = none := by
      rw [List.find?_eq_none]
      intro e he
      have : ¬ e.1 = k := fun hk => h (hk ▸ List.mem_map_of_mem Prod.fst he)
      simpa using this
    rw [List.find?_append, h3]
    simp

theorem get?_set_ne (m : GoMap κ ν) (k a : κ) (v : ν) (h : a ≠ k) :
    (m.set k v).get? a = m.get? a := by
  have h' : ¬ k = a := fun x => h x.symm
  by_cases hm : k ∈ m.entries.map Prod.fst
  · unfold set get?
    simp only [hm, dite_true]
    rw [find_replace_ne m.entries k a v h]
  · unfold set get?
    simp only [hm, dite_false]
    rw [List.find?_append]
    simp [h']

end GoMap

/-! ## Channel actor: broadcast -/

theorem rangeClients_sent (rt : Router) (addr : Address) (rm : RelayMessage) (cs : List Address) :
    (channel.rangeClients rt addr rm cs).sent =
      rt.sent ++ (cs.filter (fun c => decide (c ≠ addr))).map (fun c => (c, rm)) := by
  induction cs generalizing rt with
  | nil => simp [channel.rangeClients]
  | cons c cs ih =>
    by_cases h : c = addr
    · rw [channel.rangeClients, if_pos h, ih, List.filter_cons_of_neg (by simpa using h)]
    · rw [channel.rangeClients, if_neg h, ih, List.filter_cons_of_pos (by simpa using h)]
      simp [Router.Send]

theorem rangeClients_stopped (rt : Router) (addr : Address) (rm : RelayMessage)
    (cs : List Address) : (channel.rangeClients rt addr rm cs).stopped = rt.stopped := by
  induction cs generalizing rt with
  | nil => simp [channel.rangeClients]
  | cons c cs ih =>
    by_cases h : c = addr
    · rw [channel.rangeClients, if_pos h, ih]
    · rw [channel.rangeClients, if_neg h, ih]
      simp [Router.Send]

theorem filter_ne_length (l : List Address) (a : Address) (hn : l.Nodup) (ha : a ∈ l) :
    (l.filter (fun c => decide (c ≠ a))).length = l.length - 1 := by
  have hf : (fun c : Address => decide (c ≠ a)) = (fun c => c != a) := by
    funext c
    simp [bne, beq_eq_decide]
  rw [hf, ← hn.erase_eq_filter a, List.length_erase_of_mem ha]

theorem filter_ne_count (l : List Address) (a b : Address) (hn : l.Nodup) :
    (l.filter (fun c => decide (c ≠ a))).count b = if b ∈ l ∧ b ≠ a then 1 else 0 := by
  have hn2 : (l.filter (fun c => decide (c ≠ a))).Nodup := hn.filter _
  by_cases h : b ∈ l ∧ b ≠ a
  · rw [if_pos h]
    exact List.count_eq_one_of_mem hn2 (by simpa using h)
  · rw [if_neg h]
    apply List.count_eq_zero_of_not_mem
    simpa using h

/-- C1: when the channel actor handles an INGRESS from a participant `p`, it
issues exactly `n - 1` transport sends, exactly one to every participant other
than `p` and none to `p`, each send being the EGRESS message with the id of
the channel and the blob of the ingress; the channel, hence its participant
set, and the registry are left unchanged. -/
theorem C1_ingress_fanout (r : Relay) (ch : channel) (p : Address) (msg : Option Ingress)
    (hp : p ∈ ch.participants) :
    ∃ sends : List (Address × RelayMessage),
      (ch.processCase r (.incoming ⟨p, msg⟩)).1.router.sent = r.router.sent ++ sends ∧
      sends.length = ch.participants.length - 1 ∧
      (∀ q : Address, (sends.map Prod.fst).count q =
        if q ∈ ch.participants ∧ q ≠ p then 1 else 0) ∧
      (∀ s ∈ sends, s.2 =
        { Channel := ch.id, Type_ := RelayMessage_EGRESS,
          Egress := some { Blob := Ingress.GetBlob msg } }) ∧
      (ch.processCase r (.incoming ⟨p, msg⟩)).2 = ch ∧
      (ch.processCase r (.incoming ⟨p, msg⟩)).1.channels = r.channels := by
  have hc : ch.clients.contains p = true := (GoMap.contains_iff _ _).2 hp
  refine ⟨(ch.participants.filter (fun c => decide (c ≠ p))).map (fun c => (c,
    { Channel := ch.id, Type_ := RelayMessage_EGRESS,
      Egress := some { Blob := Ingress.GetBlob msg } })), ?_, ?_, ?_, ?_, ?_, ?_⟩
  · simp only [channel.processCase, hc, Bool.not_true, Bool.false_eq_true, if_false]
    rw [rangeClients_sent]
    rfl
  · rw [List.length_map]
    exact filter_ne_length _ _ ch.clients.nodup_keys hp
  · intro q
    simp only [List.map_map, Function.comp_def, List.map_id']
    exact filter_ne_count _ _ _ ch.clients.nodup_keys
  · intro s hs
    rw [List.mem_map] at hs
    obtain ⟨c, _, rfl⟩ := hs
    rfl
  · simp only [channel.processCase, hc, Bool.not_true, Bool.false_eq_true, if_false]
  · simp only [channel.processCase, hc, Bool.not_true, Bool.false_eq_true, if_false]

/-- Instance of C1: A broadcasts in the channel "room1" of A and B. -/
theorem C1_ingress_fanout_witness :
    "A" ∈ roomAB.participants ∧
    ∃ sends : List (Address × RelayMessage),
      (roomAB.processCase {} (.incoming ⟨"A", some ⟨[104, 105]⟩⟩)).1.router.sent =
        ({} : Relay).router.sent ++ sends ∧
      sends.length = roomAB.participants.length - 1 ∧
      (∀ q : Address, (sends.map Prod.fst).count q =
        if q ∈ roomAB.participants ∧ q ≠ "A" then 1 else 0) ∧
      (∀ s ∈ sends, s.2 =
        { Channel := roomAB.id, Type_ := RelayMessage_EGRESS,
          Egress := some { Blob := Ingress.GetBlob (some ⟨[104, 105]⟩) } }) ∧
      (roomAB.processCase {} (.incoming ⟨"A", some ⟨[104, 105]⟩⟩)).2 = roomAB ∧
      (roomAB.processCase {} (.incoming ⟨"A", some ⟨[104, 105]⟩⟩)).1.channels =
        ({} : Relay).channels :=
  ⟨by decide, C1_ingress_fanout {} roomAB "A" (some ⟨[104, 105]⟩) (by decide)⟩

theorem addClient_channels (r : Relay) (ch : channel) (client : Address) :
    (ch.addClient r client).1.channels = r.channels := rfl

/-- C2: on a channel with exactly ChannelSize (30) participants, the JOIN of
an address that is not a participant sends to that address exactly one
JOIN_RESPONSE with status FAILURE and the reason "channel: can't join a full
channel", and the channel, hence its participant set and their count, is
unchanged. -/
theorem C2_join_full_channel (r : Relay) (ch : channel) (addr : Address)
    (hfull : ch.participants.length = ChannelSize) (hnew : addr ∉ ch.participants) :
    (ch.processCase r (.join addr)).1.router.sent = r.router.sent ++
      [(addr,
        { Channel := ch.id, Type_ := RelayMessage_JOIN_RESPONSE,
          JoinResponse := some { Status := JoinResponse_FAILURE,
                                 Reason := "channel: can't join a full channel" } })] ∧
    (ch.processCase r (.join addr)).2 = ch ∧
    (ch.processCase r (.join addr)).2.participants.length = ChannelSize ∧
    (ch.processCase r (.join addr)).1.channels = r.channels := by
  have hc : ch.clients.contains addr = false := by
    rw [← Bool.not_eq_true, GoMap.contains_iff]
    exact hnew
  have hl : ¬ ch.clients.len < ChannelSize := by
    rw [GoMap.len_eq_keys_length]
    exact Nat.not_lt.2 (Nat.le_of_eq hfull.symm)
  simp only [channel.processCase, channel.addClient, hc, hl, Bool.false_eq_true, if_false,
    Router.Send, and_true, true_and]
  exact hfull

/-- Instance of C2: the address "late" joins the channel of thirty participants. -/
theorem C2_join_full_channel_witness :
    (fullRoom.participants.length = ChannelSize ∧ "late" ∉ fullRoom.participants) ∧
    (fullRoom.processCase {} (.join "late")).1.router.sent = ({} : Relay).router.sent ++
      [("late",
        { Channel := fullRoom.id, Type_ := RelayMessage_JOIN_RESPONSE,
          JoinResponse := some { Status := JoinResponse_FAILURE,
                                 Reason := "channel: can't join a full channel" } })] ∧
    (fullRoom.processCase {} (.join "late")).2 = fullRoom ∧
    (fullRoom.processCase {} (.join "late")).2.participants.length = ChannelSize ∧
    (fullRoom.processCase {} (.join "late")).1.channels = ({} : Relay).channels :=
  ⟨by decide, C2_join_full_channel {} fullRoom "late" (by decide) (by decide)⟩

/-- C3: the JOIN of an address that is already a participant (in any channel
state, a full channel included) sends exactly one JOIN_RESPONSE with status OK
to it and leaves the channel exactly as it was, so that the participant set
has no duplicate and the same cardinality; handling the same JOIN a second
time gives the channel state of handling it once. -/
theorem C3_join_present (r : Relay) (ch : channel) (addr : Address)
    (hp : addr ∈ ch.participants) :
    (ch.processCase r (.join addr)).1.router.sent = r.router.sent ++
      [(addr,
        { Channel := ch.id, Type_ := RelayMessage_JOIN_RESPONSE,
          JoinResponse := some { Status := JoinResponse_OK } })] ∧
    (ch.processCase r (.join addr)).2 = ch ∧
    (ch.processCase r (.join addr)).2.participants.Nodup ∧
    (ch.processCase r (.join addr)).2.participants.length = ch.participants.length ∧
    ((ch.processCase r (.join addr)).2.processCase
      (ch.processCase r (.join addr)).1 (.join addr)).2 = (ch.processCase r (.join addr)).2 := by
  have hc : ch.clients.contains addr = true := (GoMap.contains_iff _ _).2 hp
  have h2 : (ch.processCase r (.join addr)).2 = ch := by
    simp only [channel.processCase, channel.addClient, hc, if_true]
  refine ⟨?_, h2, ?_, ?_, ?_⟩
  · simp only [channel.processCase, channel.addClient, hc, if_true, Router.Send]
  · rw [h2]; exact ch.clients.nodup_keys
  · rw [h2]
  · rw [h2]
    simp only [channel.processCase, channel.addClient, hc, if_true]

/-- Instance of C3: the participant "p30" joins the full channel again. -/
theorem C3_join_present_witness :
    ("p30" ∈ fullRoom.participants) ∧
    (fullRoom.processCase {} (.join "p30")).1.router.sent = ({} : Relay).router.sent ++
      [("p30",
        { Channel := fullRoom.id, Type_ := RelayMessage_JOIN_RESPONSE,
          JoinResponse := some { Status := JoinResponse_OK } })] ∧
    (fullRoom.processCase {} (.join "p30")).2 = fullRoom ∧
    (fullRoom.processCase {} (.join "p30")).2.participants.Nodup ∧
    (fullRoom.processCase {} (.join "p30")).2.participants.length =
      fullRoom.participants.length ∧
    ((fullRoom.processCase {} (.join "p30")).2.processCase
      (fullRoom.processCase {} (.join "p30")).1 (.join "p30")).2 =
        (fullRoom.processCase {} (.join "p30")).2 :=
  ⟨by decide, C3_join_present {} fullRoom "p30" (by decide)⟩

/-- C4: on a channel with fewer than ChannelSize (30) participants, the JOIN
of an address that is not yet a participant yields the participant set
extended by that address (every previous member kept, the count increased by
exactly one) and sends exactly one JOIN_RESPONSE with status OK and the id of
the channel to the address. -/
theorem C4_join_new (r : Relay) (ch : channel) (addr : Address)
    (hroom : ch.participants.length < ChannelSize) (hnew : addr ∉ ch.participants) :
    (∀ x : Address, x ∈ (ch.processCase r (.join addr)).2.participants ↔
      x ∈ ch.participants ∨ x = addr) ∧
    (ch.processCase r (.join addr)).2.participants.length = ch.participants.length + 1 ∧
    (ch.processCase r (.join addr)).2.participants.Nodup ∧
    (ch.processCase r (.join addr)).1.router.sent = r.router.sent ++
      [(addr,
        { Channel := ch.id, Type_ := RelayMessage_JOIN_RESPONSE,
          JoinResponse := some { Status := JoinResponse_OK } })] := by
  have hc : ch.clients.contains addr = false := by
    rw [← Bool.not_eq_true, GoMap.contains_iff]
    exact hnew
  have hl : ch.clients.len < ChannelSize := by
    rw [GoMap.len_eq_keys_length]
    exact hroom
  have h2 : (ch.processCase r (.join addr)).2 =
      { ch with clients := ch.clients.set addr true } := by
    simp only [channel.processCase, channel.addClient, hc, hl, Bool.false_eq_true, if_false,
      if_true]
  refine ⟨?_, ?_, ?_, ?_⟩
  · intro x
    rw [h2]
    simp only [channel.participants]
    rw [GoMap.keys_set_of_not_mem _ _ _ hnew]
    simp
  · rw [h2]
    simp only [channel.participants]
    rw [GoMap.keys_set_of_not_mem _ _ _ hnew]
    simp
  · exact GoMap.nodup_keys _
  · simp only [channel.processCase, channel.addClient, hc, hl, Bool.false_eq_true, if_false,
      if_true, Router.Send]

/-- Instance of C4: C joins the channel "room1" of A and B. -/
theorem C4_join_new_witness :
    (roomAB.participants.length < ChannelSize ∧ "C" ∉ roomAB.participants) ∧
    (∀ x : Address, x ∈ (roomAB.processCase {} (.join "C")).2.participants ↔
      x ∈ roomAB.participants ∨ x = "C") ∧
    (roomAB.processCase {} (.join "C")).2.participants.length =
      roomAB.participants.length + 1 ∧
    (roomAB.processCase {} (.join "C")).2.participants.Nodup ∧
    (roomAB.processCase {} (.join "C")).1.router.sent = ({} : Relay).router.sent ++
      [("C",
        { Channel := roomAB.id, Type_ := RelayMessage_JOIN_RESPONSE,
          JoinResponse := some { Status := JoinResponse_OK } })] :=
  ⟨by decide, C4_join_new {} roomAB "C" (by decide) (by decide)⟩

/-! ## Channel actor: capacity, leave and termination -/

theorem addClient_len_le (r : Relay) (ch : channel) (client : Address)
    (h : ch.clients.len ≤ ChannelSize) : (ch.addClient r client).2.clients.len ≤ ChannelSize := by
  unfold channel.addClient
  by_cases hc : ch.clients.contains client = true
  · simp only [hc, if_true]
    exact h
  · by_cases hl : ch.clients.len < ChannelSize
    · have hn : client ∉ ch.clients.keys := fun x => hc ((GoMap.contains_iff _ _).2 x)
      simp only [hc, hl, if_true, Bool.false_eq_true, if_false]
      rw [GoMap.len_set_of_not_mem _ _ _ hn]
      exact hl
    · simp only [hc, hl, Bool.false_eq_true, if_false]
      exact h

theorem processCase_len_le (r : Relay) (ch : channel) (e : Received)
    (h : ch.clients.len ≤ ChannelSize) : (ch.processCase r e).2.clients.len ≤ ChannelSize := by
  cases e with
  | finished => exact h
  | join addr => exact addClient_len_le r ch addr h
  | leave addr =>
    have hd : (ch.clients.delete addr).len ≤ ChannelSize :=
      Nat.le_trans (GoMap.len_delete_le _ _) h
    unfold channel.processCase
    by_cases h0 : (ch.clients.delete addr).len = 0
    · simp only [h0, if_true, channel.setDone]
      exact Nat.zero_le _
    · simp only [h0, if_false]
      exact hd
  | incoming info =>
    unfold channel.processCase
    by_cases hc : ch.clients.contains info.address = true
    · simp only [hc, Bool.not_true, Bool.false_eq_true, if_false]
      exact h
    · simp only [hc, Bool.not_false, if_true]
      exact h

theorem process_len_le (evs : List Received) (r : Relay) (ch : channel)
    (h : ch.clients.len ≤ ChannelSize) : (ch.process r evs).2.clients.len ≤ ChannelSize := by
  induction evs generalizing r ch with
  | nil => exact h
  | cons e es ih =>
    unfold channel.process
    by_cases hr : (ch.processCase r e).2.returned = true
    · simp only [hr, if_true]
      exact processCase_len_le r ch e h
    · simp only [hr, Bool.false_eq_true, if_false]
      exact ih _ _ (processCase_len_le r ch e h)

theorem foldl_len_le (evs : List Received) (s : Relay × channel)
    (h : s.2.clients.len ≤ ChannelSize) :
    (evs.foldl (fun s e => channel.processCase s.1 s.2 e) s).2.clients.len ≤ ChannelSize := by
  induction evs generalizing s with
  | nil => exact h
  | cons e es ih =>
    rw [List.foldl_cons]
    exact ih _ (processCase_len_le s.1 s.2 e h)

/-- C5: channel capacity invariant.  Starting from the empty participant set
of a newly created channel, after any finite sequence of received values
(JOIN, LEAVE, INGRESS with any addresses and blobs, and the stop signal) the
participant set has at most ChannelSize (30) members, both for the loop of
the actor, which stops at its return, and for the handlers applied to the
whole sequence. -/
theorem C5_capacity_invariant (r : Relay) (id : String) (evs : List Received) :
    (newChannel id).participants = [] ∧
    ((newChannel id).process r evs).2.participants.length ≤ ChannelSize ∧
    (evs.foldl (fun s e => channel.processCase s.1 s.2 e)
      (r, newChannel id)).2.participants.length ≤ ChannelSize := by
  have h0 : (newChannel id).clients.len ≤ ChannelSize := Nat.zero_le _
  refine ⟨rfl, ?_, ?_⟩
  · have := process_len_le evs r (newChannel id) h0
    rw [GoMap.len_eq_keys_length] at this
    exact this
  · have := foldl_len_le evs (r, newChannel id) h0
    rw [GoMap.len_eq_keys_length] at this
    exact this

/-- C6: the INGRESS of an address that is not a participant issues no
transport send and leaves the relay (router log and registry) and the channel
(participant set, done flag, queues) unchanged; the actor keeps running, that
is, a running loop goes on with the next received value. -/
theorem C6_ingress_non_participant (r : Relay) (ch : channel) (addr : Address)
    (msg : Option Ingress) (h : addr ∉ ch.participants) :
    ch.processCase r (.incoming ⟨addr, msg⟩) = (r, ch) ∧
    (ch.processCase r (.incoming ⟨addr, msg⟩)).1.router.sent = r.router.sent ∧
    (ch.returned = false →
      ∀ es : List Received, ch.process r (.incoming ⟨addr, msg⟩ :: es) = ch.process r es) := by
  have hc : ch.clients.contains addr = false := by
    rw [← Bool.not_eq_true, GoMap.contains_iff]
    exact h
  have h1 : ch.processCase r (.incoming ⟨addr, msg⟩) = (r, ch) := by
    simp only [channel.processCase, hc, Bool.not_false, if_true]
  refine ⟨h1, by rw [h1], ?_⟩
  intro hr es
  rw [channel.process, h1]
  simp only [hr, Bool.false_eq_true, if_false]

/-- Instance of C6: Z, not a participant, broadcasts in the channel "room1" of A and B. -/
theorem C6_ingress_non_participant_witness :
    "Z" ∉ roomAB.participants ∧
    (roomAB.processCase {} (.incoming ⟨"Z", some ⟨[1]⟩⟩) = ({}, roomAB) ∧
    (roomAB.processCase {} (.incoming ⟨"Z", some ⟨[1]⟩⟩)).1.router.sent =
      ({} : Relay).router.sent ∧
    (roomAB.returned = false →
      ∀ es : List Received,
        roomAB.process {} (.incoming ⟨"Z", some ⟨[1]⟩⟩ :: es) = roomAB.process {} es)) :=
  ⟨by decide, C6_ingress_non_participant {} roomAB "Z" (some ⟨[1]⟩) (by decide)⟩

theorem processCase_leave_clients (r : Relay) (ch : channel) (addr : Address) :
    (ch.processCase r (.leave addr)).2.clients = ch.clients.delete addr := by
  unfold channel.processCase
  by_cases h0 : (ch.clients.delete addr).len = 0
  · simp only [h0, if_true, channel.setDone]
  · simp only [h0, if_false]

theorem processCase_leave_router (r : Relay) (ch : channel) (addr : Address) :
    (ch.processCase r (.leave addr)).1.router = r.router := by
  unfold channel.processCase
  by_cases h0 : (ch.clients.delete addr).len = 0
  · simp only [h0, if_true, Relay.deleteChannel]
  · simp only [h0, if_false]

/-- C7: handling LEAVE(addr) yields the participant set without addr: addr is
no longer a participant, every other participant is kept and nobody is added,
and when addr was absent the set is unchanged; no transport send is issued. -/
theorem C7_leave_removes (r : Relay) (ch : channel) (addr : Address) :
    (∀ x : Address, x ∈ (ch.processCase r (.leave addr)).2.participants ↔
      x ∈ ch.participants ∧ x ≠ addr) ∧
    addr ∉ (ch.processCase r (.leave addr)).2.participants ∧
    (addr ∉ ch.participants → (ch.processCase r (.leave addr)).2.clients = ch.clients) ∧
    (ch.processCase r (.leave addr)).1.router = r.router := by
  refine ⟨?_, ?_, ?_, processCase_leave_router r ch addr⟩
  · intro x
    unfold channel.participants
    rw [processCase_leave_clients]
    exact GoMap.mem_keys_delete _ _ _
  · unfold channel.participants
    rw [processCase_leave_clients, GoMap.mem_keys_delete]
    exact fun h => h.2 rfl
  · intro h
    rw [processCase_leave_clients]
    exact GoMap.delete_of_not_mem _ _ h

/-- Instance of C7: the LEAVE of the absent Z and of the participant A in "room1". -/
theorem C7_leave_removes_witness :
    "Z" ∉ roomAB.participants ∧
    (roomAB.processCase {} (.leave "Z")).2.clients = roomAB.clients ∧
    "A" ∉ (roomAB.processCase {} (.leave "A")).2.participants :=
  ⟨by decide, (C7_leave_removes {} roomAB "Z").2.2.1 (by decide),
    (C7_leave_removes {} roomAB "A").2.1⟩

theorem participants_eq_nil_iff (ch : channel) : ch.participants = [] ↔ ch.clients.len = 0 := by
  rw [GoMap.len_eq_keys_length]
  exact List.length_eq_zero.symm

/-- C8: for a registered, running channel, when handling a LEAVE leaves the
participant set empty, the channel sets done, the registry entry of its id is
removed while every other registry entry is unchanged, and the loop of the
actor returns, no further received value being handled; when the set is
still non-empty after the LEAVE, the registry is unchanged, so the channel
stays registered, and it stays not done and running, the loop going on with
the next received value. -/
theorem C8_leave_terminates_empty_channel (r : Relay) (ch : channel) (addr : Address)
    (hreg : r.channels.contains ch.id = true) (hdone : ch.done = false)
    (hrun : ch.returned = false) :
    ((ch.processCase r (.leave addr)).2.participants = [] →
      (ch.processCase r (.leave addr)).2.done = true ∧
      (ch.processCase r (.leave addr)).1.channels.get? ch.id = none ∧
      (∀ k : String, k ≠ ch.id →
        (ch.processCase r (.leave addr)).1.channels.get? k = r.channels.get? k) ∧
      (ch.processCase r (.leave addr)).2.returned = true ∧
      (∀ es : List Received,
        ch.process r (.leave addr :: es) = ch.processCase r (.leave addr))) ∧
    ((ch.processCase r (.leave addr)).2.participants ≠ [] →
      (ch.processCase r (.leave addr)).1.channels = r.channels ∧
      (ch.processCase r (.leave addr)).1.channels.contains ch.id = true ∧
      (ch.processCase r (.leave addr)).2.done = false ∧
      (ch.processCase r (.leave addr)).2.returned = false ∧
      (∀ es : List Received,
        ch.process r (.leave addr :: es) =
          (ch.processCase r (.leave addr)).2.process (ch.processCase r (.leave addr)).1 es)) := by
  have hcl := processCase_leave_clients r ch addr
  constructor
  · intro hp
    rw [participants_eq_nil_iff, hcl] at hp
    have h1 : ch.processCase r (.leave addr) =
        (r.deleteChannel ch.id,
          { ({ ch with clients := ch.clients.delete addr } : channel).setDone with
            returned := true }) := by
      simp only [channel.processCase, hp, if_true]
    refine ⟨?_, ?_, ?_, ?_, ?_⟩
    · rw [h1]; rfl
    · rw [h1]; exact GoMap.get?_delete_self _ _
    · intro k hk
      rw [h1]
      exact GoMap.get?_delete_ne _ _ _ hk
    · rw [h1]
    · intro es
      rw [channel.process, h1]
      simp only [if_true]
  · intro hp
    rw [Ne, participants_eq_nil_iff, hcl] at hp
    have h1 : ch.processCase r (.leave addr) =
        (r, { ch with clients := ch.clients.delete addr }) := by
      simp only [channel.processCase, hp, if_false]
    refine ⟨?_, ?_, ?_, ?_, ?_⟩
    · rw [h1]
    · rw [h1]; exact hreg
    · rw [h1]; exact hdone
    · rw [h1]; exact hrun
    · intro es
      rw [channel.process, h1]
      simp only [hrun, Bool.false_eq_true, if_false]

/-- Instance of C8: in "room1" the LEAVE of A leaves B, then the LEAVE of B empties the channel. -/
theorem C8_leave_terminates_empty_channel_witness :
    (relayAB.channels.contains roomAB.id = true ∧ roomAB.done = false ∧
      roomAB.returned = false ∧
      (roomAB.processCase relayAB (.leave "A")).2.participants ≠ [] ∧
      relayAB.channels.contains roomB.id = true ∧ roomB.done = false ∧
      roomB.returned = false ∧
      (roomB.processCase relayAB (.leave "B")).2.participants = []) ∧
    ((roomAB.processCase relayAB (.leave "A")).1.channels = relayAB.channels ∧
      (roomAB.processCase relayAB (.leave "A")).1.channels.contains roomAB.id = true ∧
      (roomAB.processCase relayAB (.leave "A")).2.done = false ∧
      (roomAB.processCase relayAB (.leave "A")).2.returned = false ∧
      (∀ es : List Received,
        roomAB.process relayAB (.leave "A" :: es) =
          (roomAB.processCase relayAB (.leave "A")).2.process
            (roomAB.processCase relayAB (.leave "A")).1 es)) ∧
    ((roomB.processCase relayAB (.leave "B")).2.done = true ∧
      (roomB.processCase relayAB (.leave "B")).1.channels.get? roomB.id = none ∧
      (∀ k : String, k ≠ roomB.id →
        (roomB.processCase relayAB (.leave "B")).1.channels.get? k = relayAB.channels.get? k) ∧
      (roomB.processCase relayAB (.leave "B")).2.returned = true ∧
      (∀ es : List Received,
        roomB.process relayAB (.leave "B" :: es) = roomB.processCase relayAB (.leave "B"))) :=
  ⟨by decide,
    (C8_leave_terminates_empty_channel relayAB roomAB "A" (by decide) (by decide)
      (by decide)).2 (by decide),
    (C8_leave_terminates_empty_channel relayAB roomB "B" (by decide) (by decide)
      (by decide)).1 (by decide)⟩

/-! ## Relay registry: dispatch -/

theorem store_of_contains (r : Relay) (id : String) (ch : channel)
    (h : r.channels.contains id = true) :
    r.store id ch = { r with channels := r.channels.set id ch } := by
  simp only [Relay.store, h, if_true]

theorem contains_set_self (m : GoMap String channel) (id : String) (ch : channel) :
    (m.set id ch).contains id = true := by
  unfold GoMap.contains
  rw [GoMap.get?_set_self]
  rfl

/-- The registry after the dispatch of a message with the new id `id`: the
new channel is registered and then holds the queued message. -/
theorem Process_new_id (r : Relay) (sender : Address) (m : RelayMessage)
    (hid : m.Channel ≠ "") (hnew : r.channels.get? m.Channel = none)
    (hcap : ¬ r.channels.len > MaxChannel) (ch1 : channel)
    (hq : (newChannel m.Channel).newMessage sender m = some ch1) :
    r.Process sender (.relayMessage m) =
      some { r with
        channels := (r.channels.set m.Channel (newChannel m.Channel)).set m.Channel ch1 } := by
  simp only [Relay.Process, RelayMessage.GetChannel, hid, if_false, hnew, hcap, hq, Option.map_some']
  rw [store_of_contains _ _ _ (contains_set_self _ _ _)]

theorem newMessage_join_new (id : String) (sender : Address) (m : RelayMessage)
    (hty : m.Type_ = RelayMessage_JOIN) :
    (newChannel id).newMessage sender m = some { newChannel id with join := [sender] } := by
  simp [channel.newMessage, RelayMessage.GetType, hty, chanSend, newChannel, ChannelQueueSize]

/-- The first iteration of the actor of a new channel whose queue holds the
JOIN of `a`. -/
theorem schedule_join_new (rt : Router) (cs : GoMap String channel) (id : String)
    (a : Address) (h : cs.get? id = some { newChannel id with join := [a] }) :
    (Relay.mk rt cs).schedule id .join =
      some (Relay.mk
        (rt.Send a
          { Channel := id, Type_ := RelayMessage_JOIN_RESPONSE,
            JoinResponse := some { Status := JoinResponse_OK } }).1
        (cs.set id { newChannel id with clients := GoMap.empty.set a true })) := by
  have hc : cs.contains id = true := by
    unfold GoMap.contains
    rw [h]
    rfl
  have he : (GoMap.empty : GoMap Address Bool).contains a = false := rfl
  have hl : (GoMap.empty : GoMap Address Bool).len < ChannelSize := by decide
  simp only [Relay.schedule, h, newChannel, channel.select, channel.processCase,
    channel.addClient, he, hl, Bool.false_eq_true, if_false, if_true, Relay.store, hc]

/-- C9: on a registry with fewer than MaxChannel (50) channels, the dispatch
of a JOIN from address `a` for a non-empty channel id that is not a key of
the registry adds exactly one entry, keyed by that id, and changes no other
entry and sends nothing; the new channel is the freshly created one, with an
empty participant set and the JOIN of `a` in its queue, and once its actor
has handled that JOIN its participant set is exactly `a` and `a` has been
sent JOIN_RESPONSE OK. -/
theorem C9_first_join_creates_channel (r : Relay) (a : Address) (m : RelayMessage)
    (hty : m.Type_ = RelayMessage_JOIN) (hid : m.Channel ≠ "")
    (hnew : r.channels.get? m.Channel = none) (hcap : r.channels.len < MaxChannel) :
    ∃ r1 r2 : Relay, ∃ ch2 : channel,
      r.Process a (.relayMessage m) = some r1 ∧
      (∀ k : String, k ∈ r1.channels.keys ↔ k ∈ r.channels.keys ∨ k = m.Channel) ∧
      r1.channels.len = r.channels.len + 1 ∧
      (∀ k : String, k ≠ m.Channel → r1.channels.get? k = r.channels.get? k) ∧
      r1.router = r.router ∧
      r1.channels.get? m.Channel = some { newChannel m.Channel with join := [a] } ∧
      ({ newChannel m.Channel with join := [a] } : channel).participants = [] ∧
      r1.schedule m.Channel .join = some r2 ∧
      r2.channels.get? m.Channel = some ch2 ∧
      ch2.participants = [a] ∧
      r2.router.sent = r1.router.sent ++
        [(a,
          { Channel := m.Channel, Type_ := RelayMessage_JOIN_RESPONSE,
            JoinResponse := some { Status := JoinResponse_OK } })] ∧
      (∀ k : String, k ≠ m.Channel → r2.channels.get? k = r.channels.get? k) := by
  have hcap2 : ¬ r.channels.len > MaxChannel := by
    unfold MaxChannel at *
    omega
  have hnk : m.Channel ∉ r.channels.keys := (GoMap.get?_eq_none_iff _ _).1 hnew
  have hP := Process_new_id r a m hid hnew hcap2 _ (newMessage_join_new m.Channel a m hty)
  have hk1 : m.Channel ∈ (r.channels.set m.Channel (newChannel m.Channel)).keys := by
    rw [GoMap.keys_set_of_not_mem _ _ _ hnk]
    simp
  have hg1 : ((r.channels.set m.Channel (newChannel m.Channel)).set m.Channel
      { newChannel m.Channel with join := [a] }).get? m.Channel =
        some { newChannel m.Channel with join := [a] } := GoMap.get?_set_self _ _ _
  have hS := schedule_join_new r.router _ m.Channel a hg1
  refine ⟨_, _, { newChannel m.Channel with clients := GoMap.empty.set a true },
    hP, ?_, ?_, ?_, rfl, hg1, rfl, hS, ?_, ?_, ?_, ?_⟩
  · intro k
    simp only
    rw [GoMap.keys_set_of_mem _ _ _ hk1, GoMap.keys_set_of_not_mem _ _ _ hnk]
    simp
  · simp only
    rw [GoMap.len_set_of_mem _ _ _ hk1, GoMap.len_set_of_not_mem _ _ _ hnk]
  · intro k hk
    simp only
    rw [GoMap.get?_set_ne _ _ _ _ hk, GoMap.get?_set_ne _ _ _ _ hk]
  · exact GoMap.get?_set_self _ _ _
  · rfl
  · rfl
  · intro k hk
    simp only
    rw [GoMap.get?_set_ne _ _ _ _ hk, GoMap.get?_set_ne _ _ _ _ hk,
      GoMap.get?_set_ne _ _ _ _ hk]

/-- Instance of C9: the first JOIN, from A, for "room1" on a new relay. -/
theorem C9_first_join_creates_channel_witness :
    ((({ Channel := "room1", Type_ := RelayMessage_JOIN } : RelayMessage).Type_ =
        RelayMessage_JOIN) ∧
      ({ Channel := "room1", Type_ := RelayMessage_JOIN } : RelayMessage).Channel ≠ "" ∧
      (NewRelay {}).channels.get? "room1" = none ∧
      (NewRelay {}).channels.len < MaxChannel) ∧
    ∃ r1 r2 : Relay, ∃ ch2 : channel,
      (NewRelay {}).Process "A"
        (.relayMessage { Channel := "room1", Type_ := RelayMessage_JOIN }) = some r1 ∧
      (∀ k : String, k ∈ r1.channels.keys ↔ k ∈ (NewRelay {}).channels.keys ∨
        k = ({ Channel := "room1", Type_ := RelayMessage_JOIN } : RelayMessage).Channel) ∧
      r1.channels.len = (NewRelay {}).channels.len + 1 ∧
      (∀ k : String,
        k ≠ ({ Channel := "room1", Type_ := RelayMessage_JOIN } : RelayMessage).Channel →
        r1.channels.get? k = (NewRelay {}).channels.get? k) ∧
      r1.router = (NewRelay {}).router ∧
      r1.channels.get? "room1" = some { newChannel "room1" with join := ["A"] } ∧
      ({ newChannel "room1" with join := ["A"] } : channel).participants = [] ∧
      r1.schedule "room1" .join = some r2 ∧
      r2.channels.get? "room1" = some ch2 ∧
      ch2.participants = ["A"] ∧
      r2.router.sent = r1.router.sent ++
        [("A",
          { Channel := "room1", Type_ := RelayMessage_JOIN_RESPONSE,
            JoinResponse := some { Status := JoinResponse_OK } })] ∧
      (∀ k : String,
        k ≠ ({ Channel := "room1", Type_ := RelayMessage_JOIN } : RelayMessage).Channel →
        r2.channels.get? k = (NewRelay {}).channels.get? k) :=
  ⟨by decide,
    C9_first_join_creates_channel (NewRelay {}) "A"
      { Channel := "room1", Type_ := RelayMessage_JOIN } rfl (by decide) rfl (by decide)⟩

set_option maxRecDepth 100000 in
/-- C10: on the registry of exactly MaxChannel (50) channels reached by fifty
dispatched JOINs, the dispatch of a JOIN for a further id is not rejected:
a 51st channel is created and registered and no JOIN_RESPONSE is sent. -/
theorem C10_fifty_first_channel_created :
    fiftyChannels.channels.len = MaxChannel ∧
    fiftyChannels.channels.get? "extra" = none ∧
    ∃ r1 : Relay,
      fiftyChannels.Process "Z"
        (.relayMessage { Channel := "extra", Type_ := RelayMessage_JOIN }) = some r1 ∧
      r1.channels.len = MaxChannel + 1 ∧
      r1.channels.get? "extra" = some { newChannel "extra" with join := ["Z"] } ∧
      r1.router.sent = fiftyChannels.router.sent := by
  have h1 : fiftyChannels.channels.len = MaxChannel := by decide
  have h2 : fiftyChannels.channels.get? "extra" = none := by decide
  have hnk : "extra" ∉ fiftyChannels.channels.keys := (GoMap.get?_eq_none_iff _ _).1 h2
  have hcap : ¬ fiftyChannels.channels.len > MaxChannel := by
    rw [h1]
    exact Nat.lt_irrefl _
  have hP := Process_new_id fiftyChannels "Z" { Channel := "extra", Type_ := RelayMessage_JOIN }
    (by decide) h2 hcap _ (newMessage_join_new "extra" "Z" _ rfl)
  have hk1 : "extra" ∈ (fiftyChannels.channels.set "extra" (newChannel "extra")).keys := by
    rw [GoMap.keys_set_of_not_mem _ _ _ hnk]
    simp
  refine ⟨h1, h2, _, hP, ?_, ?_, rfl⟩
  · simp only
    rw [GoMap.len_set_of_mem _ _ _ hk1, GoMap.len_set_of_not_mem _ _ _ hnk, h1]
  · exact GoMap.get?_set_self _ _ _

/-! ## Relay registry: bounds and reachable states -/

theorem store_keys (r : Relay) (id : String) (ch : channel) :
    (r.store id ch).channels.keys = r.channels.keys := by
  unfold Relay.store
  by_cases h : r.channels.contains id = true
  · simp only [h, if_true]
    exact GoMap.keys_set_of_mem _ _ _ ((GoMap.contains_iff _ _).1 h)
  · simp only [h, Bool.false_eq_true, if_false]

theorem store_len (r : Relay) (id : String) (ch : channel) :
    (r.store id ch).channels.len = r.channels.len := by
  rw [GoMap.len_eq_keys_length, GoMap.len_eq_keys_length, store_keys]

theorem store_router (r : Relay) (id : String) (ch : channel) :
    (r.store id ch).router = r.router := by
  unfold Relay.store
  by_cases h : r.channels.contains id = true
  · simp only [h, if_true]
  · simp only [h, Bool.false_eq_true, if_false]

theorem store_get?_ne (r : Relay) (id k : String) (ch : channel) (h : k ≠ id) :
    (r.store id ch).channels.get? k = r.channels.get? k := by
  unfold Relay.store
  by_cases hc : r.channels.contains id = true
  · simp only [hc, if_true]
    exact GoMap.get?_set_ne _ _ _ _ h
  · simp only [hc, Bool.false_eq_true, if_false]

theorem store_get?_self (r : Relay) (id : String) (ch : channel)
    (h : r.channels.contains id = true) : (r.store id ch).channels.get? id = some ch := by
  rw [store_of_contains _ _ _ h]
  exact GoMap.get?_set_self _ _ _

theorem contains_of_get? (m : GoMap String channel) (id : String) (ch : channel)
    (h : m.get? id = some ch) : m.contains id = true := by
  unfold GoMap.contains
  rw [h]
  rfl

/-- A message for a new channel is always queued or dropped: the queues of a
new channel are empty. -/
theorem newMessage_new (id : String) (sender : Address) (m : RelayMessage) :
    ∃ ch1 : channel, (newChannel id).newMessage sender m = some ch1 ∧
      ch1.participants = [] ∧
      ((m.Type_ = RelayMessage_EGRESS ∨ m.Type_ = RelayMessage_JOIN_RESPONSE) →
        ch1 = newChannel id) := by
  cases hty : m.Type_ <;>
    simp [channel.newMessage, RelayMessage.GetType, hty, chanSend, newChannel,
      ChannelQueueSize, channel.participants, GoMap.keys, GoMap.empty]

theorem Process_too_many (r : Relay) (sender : Address) (m : RelayMessage)
    (hid : m.Channel ≠ "") (hnew : r.channels.get? m.Channel = none)
    (hcap : r.channels.len > MaxChannel) :
    r.Process sender (.relayMessage m) =
      some { r with
        router := (r.router.Send sender
          { Type_ := RelayMessage_JOIN_RESPONSE,
            JoinResponse := some
              { Status := JoinResponse_FAILURE, Reason := "too many channels" } }).1 } := by
  simp only [Relay.Process, RelayMessage.GetChannel, hid, if_false, hnew, hcap, if_true]

theorem Process_len_le (r r1 : Relay) (sender : Address) (msg : Message)
    (h : r.Process sender msg = some r1) (hr : r.channels.len ≤ MaxChannel + 1) :
    r1.channels.len ≤ MaxChannel + 1 := by
  cases msg with
  | unknown =>
    simp only [Relay.Process, Option.some.injEq] at h
    rw [← h]; exact hr
  | relayMessage m =>
    by_cases hid : m.Channel = ""
    · simp only [Relay.Process, RelayMessage.GetChannel, hid, if_true, Option.some.injEq] at h
      rw [← h]; exact hr
    · cases hg : r.channels.get? m.Channel with
      | some ch =>
        simp only [Relay.Process, RelayMessage.GetChannel, hid, if_false, hg] at h
        cases hq : ch.newMessage sender m with
        | none => rw [hq] at h; simp at h
        | some ch1 =>
          rw [hq] at h
          simp only [Option.map_some', Option.some.injEq] at h
          rw [← h, store_len]; exact hr
      | none =>
        by_cases hcap : r.channels.len > MaxChannel
        · rw [Process_too_many r sender m hid hg hcap] at h
          simp only [Option.some.injEq] at h
          rw [← h]; exact hr
        · obtain ⟨ch1, hq, _, _⟩ := newMessage_new m.Channel sender m
          rw [Process_new_id r sender m hid hg hcap ch1 hq] at h
          simp only [Option.some.injEq] at h
          have hnk : m.Channel ∉ r.channels.keys := (GoMap.get?_eq_none_iff _ _).1 hg
          have hk1 : m.Channel ∈ (r.channels.set m.Channel (newChannel m.Channel)).keys := by
            rw [GoMap.keys_set_of_not_mem _ _ _ hnk]
            simp
          rw [← h]
          simp only
          rw [GoMap.len_set_of_mem _ _ _ hk1, GoMap.len_set_of_not_mem _ _ _ hnk]
          exact Nat.succ_le_succ (Nat.le_of_not_gt hcap)

theorem processCase_channels_len_le (r : Relay) (ch : channel) (e : Received) :
    (ch.processCase r e).1.channels.len ≤ r.channels.len := by
  cases e with
  | finished => exact Nat.le_refl _
  | join addr => exact Nat.le_refl _
  | leave addr =>
    unfold channel.processCase
    by_cases h0 : (ch.clients.delete addr).len = 0
    · simp only [h0, if_true, Relay.deleteChannel]
      exact GoMap.len_delete_le _ _
    · simp only [h0, if_false]
      exact Nat.le_refl _
  | incoming info =>
    unfold channel.processCase
    by_cases hc : ch.clients.contains info.address = true
    · simp only [hc, Bool.not_true, Bool.false_eq_true, if_false]
      exact Nat.le_refl _
    · simp only [hc, Bool.not_false, if_true]
      exact Nat.le_refl _

theorem schedule_len_le (r r1 : Relay) (id : String) (c : SelectCase)
    (h : r.schedule id c = some r1) : r1.channels.len ≤ r.channels.len := by
  unfold Relay.schedule at h
  cases hg : r.channels.get? id with
  | none => rw [hg] at h; simp at h
  | some ch =>
    rw [hg] at h
    simp only at h
    by_cases hr : ch.returned = true
    · simp [hr] at h
    · simp only [hr, Bool.false_eq_true, if_false] at h
      cases hs : ch.select c with
      | none => rw [hs] at h; simp at h
      | some p =>
        rw [hs] at h
        simp only [Option.some.injEq] at h
        rw [← h, store_len]
        exact processCase_channels_len_le _ _ _

theorem rangeChannels_keys (f : String → channel → Option channel) (ids : List String)
    (r r1 : Relay) (h : Relay.rangeChannels f r ids = some r1) :
    r1.channels.keys = r.channels.keys ∧ r1.router = r.router := by
  induction ids generalizing r with
  | nil =>
    simp only [Relay.rangeChannels, Option.some.injEq] at h
    rw [← h]; exact ⟨rfl, rfl⟩
  | cons id ids ih =>
    unfold Relay.rangeChannels at h
    cases hg : r.channels.get? id with
    | none =>
      rw [hg] at h
      exact ih r h
    | some ch =>
      rw [hg] at h
      simp only at h
      cases hf : f id ch with
      | none => rw [hf] at h; simp at h
      | some ch1 =>
        rw [hf] at h
        simp only at h
        have := ih _ h
        rw [store_keys, store_router] at this
        exact this

theorem stopChannels_eq (ids : List String) (r : Relay) :
    r.stopChannels ids = Relay.rangeChannels (fun _ ch => ch.stop) r ids := by
  induction ids generalizing r with
  | nil => rfl
  | cons id ids ih =>
    unfold Relay.stopChannels Relay.rangeChannels
    cases r.channels.get? id with
    | none => exact ih r
    | some ch =>
      simp only
      cases ch.stop with
      | none => rfl
      | some ch1 => exact ih _

theorem leaveChannels_eq (addr : Address) (ids : List String) (r : Relay) :
    r.leaveChannels addr ids =
      Relay.rangeChannels
        (fun id ch => ch.newMessage addr { Channel := id, Type_ := RelayMessage_LEAVE })
        r ids := by
  induction ids generalizing r with
  | nil => rfl
  | cons id ids ih =>
    unfold Relay.leaveChannels Relay.rangeChannels
    cases r.channels.get? id with
    | none => exact ih r
    | some ch =>
      simp only
      cases ch.newMessage addr { Channel := id, Type_ := RelayMessage_LEAVE } with
      | none => rfl
      | some ch1 => exact ih _

theorem step_len_le (r r1 : Relay) (s : RelayStep) (h : r.step s = some r1)
    (hr : r.channels.len ≤ MaxChannel + 1) : r1.channels.len ≤ MaxChannel + 1 := by
  cases s with
  | Process sender msg => exact Process_len_le r r1 sender msg h hr
  | deleteChannel id =>
    simp only [Relay.step, Option.some.injEq] at h
    rw [← h]
    exact Nat.le_trans (GoMap.len_delete_le _ _) hr
  | schedule id c => exact Nat.le_trans (schedule_len_le r r1 id c h) hr
  | Receive e =>
    cases e with
    | unknown name =>
      simp only [Relay.step, Relay.Receive, Option.some.injEq] at h
      rw [← h]; exact hr
    | EventDown addr =>
      simp only [Relay.step, Relay.Receive, leaveChannels_eq] at h
      rw [GoMap.len_eq_keys_length, (rangeChannels_keys _ _ _ _ h).1,
        ← GoMap.len_eq_keys_length]
      exact hr
  | Stop =>
    simp only [Relay.step, Relay.Stop, stopChannels_eq] at h
    rw [GoMap.len_eq_keys_length, (rangeChannels_keys _ _ _ _ h).1]
    rw [GoMap.len_eq_keys_length] at hr
    exact hr

theorem run_len_le (ss : List RelayStep) (r r1 : Relay) (h : r.run ss = some r1)
    (hr : r.channels.len ≤ MaxChannel + 1) : r1.channels.len ≤ MaxChannel + 1 := by
  induction ss generalizing r with
  | nil =>
    simp only [Relay.run, Option.some.injEq] at h
    rw [← h]; exact hr
  | cons s ss ih =>
    unfold Relay.run at h
    cases hs : r.step s with
    | none => rw [hs] at h; simp at h
    | some r2 =>
      rw [hs] at h
      exact ih r2 h (step_len_le r r2 s hs hr)

set_option maxRecDepth 100000 in
theorem fiftyOneJoins_len :
    ((NewRelay {}).run fiftyOneJoins).map (fun r => r.channels.len) = some (MaxChannel + 1) := by
  decide

/-- C11: for a message with a non-empty channel id that is not in the
registry, Process refuses (FAILURE "too many channels" sent to the sender,
registry unchanged, hence nothing queued) when the channel count is strictly
greater than MaxChannel, and otherwise registers a new channel and sends
nothing; every registry reached from a new relay by steps of the relay has at
most MaxChannel + 1 = 51 channels, and a registry of 51 channels is reached. -/
theorem C11_refusal_strictly_above_cap (r : Relay) (sender : Address) (m : RelayMessage)
    (hid : m.Channel ≠ "") (hnew : r.channels.get? m.Channel = none) :
    (r.channels.len > MaxChannel →
      ∃ r1 : Relay, r.Process sender (.relayMessage m) = some r1 ∧
        r1.channels = r.channels ∧
        r1.router.sent = r.router.sent ++
          [(sender,
            { Type_ := RelayMessage_JOIN_RESPONSE,
              JoinResponse := some
                { Status := JoinResponse_FAILURE, Reason := "too many channels" } })]) ∧
    (¬ r.channels.len > MaxChannel →
      ∃ r1 : Relay, r.Process sender (.relayMessage m) = some r1 ∧
        r1.channels.contains m.Channel = true ∧
        r1.channels.len = r.channels.len + 1 ∧
        r1.router = r.router) ∧
    (∀ (rt : Router) (ss : List RelayStep) (r2 : Relay),
      (NewRelay rt).run ss = some r2 → r2.channels.len ≤ MaxChannel + 1) ∧
    (∃ (ss : List RelayStep) (r2 : Relay),
      (NewRelay {}).run ss = some r2 ∧ r2.channels.len = MaxChannel + 1) := by
  refine ⟨?_, ?_, ?_, ?_⟩
  · intro hcap
    exact ⟨_, Process_too_many r sender m hid hnew hcap, rfl, rfl⟩
  · intro hcap
    obtain ⟨ch1, hq, _, _⟩ := newMessage_new m.Channel sender m
    have hnk : m.Channel ∉ r.channels.keys := (GoMap.get?_eq_none_iff _ _).1 hnew
    have hk1 : m.Channel ∈ (r.channels.set m.Channel (newChannel m.Channel)).keys := by
      rw [GoMap.keys_set_of_not_mem _ _ _ hnk]
      simp
    refine ⟨_, Process_new_id r sender m hid hnew hcap ch1 hq, ?_, ?_, rfl⟩
    · exact contains_set_self _ _ _
    · simp only
      rw [GoMap.len_set_of_mem _ _ _ hk1, GoMap.len_set_of_not_mem _ _ _ hnk]
  · intro rt ss r2 h
    exact run_len_le ss (NewRelay rt) r2 h (Nat.zero_le _)
  · have h := fiftyOneJoins_len
    cases hr : (NewRelay {}).run fiftyOneJoins with
    | none => rw [hr] at h; simp at h
    | some r2 =>
      rw [hr] at h
      simp only [Option.map_some', Option.some.injEq] at h
      exact ⟨fiftyOneJoins, r2, hr, h⟩

set_option maxRecDepth 100000 in
/-- Instance of C11: with 51 channels the JOIN for the new id "late" is
refused, and on a new relay the channel "room1" is created. -/
theorem C11_refusal_strictly_above_cap_witness :
    (fiftyOneChannels.channels.get? "late" = none ∧
      fiftyOneChannels.channels.len > MaxChannel ∧
      ¬ (NewRelay {}).channels.len > MaxChannel) ∧
    (∃ r1 : Relay,
      fiftyOneChannels.Process "Z"
        (.relayMessage { Channel := "late", Type_ := RelayMessage_JOIN }) = some r1 ∧
        r1.channels = fiftyOneChannels.channels ∧
        r1.router.sent = fiftyOneChannels.router.sent ++
          [("Z",
            { Type_ := RelayMessage_JOIN_RESPONSE,
              JoinResponse := some
                { Status := JoinResponse_FAILURE, Reason := "too many channels" } })]) ∧
    (∃ r1 : Relay,
      (NewRelay {}).Process "Z"
        (.relayMessage { Channel := "room1", Type_ := RelayMessage_LEAVE }) = some r1 ∧
        r1.channels.contains "room1" = true ∧
        r1.channels.len = (NewRelay {}).channels.len + 1 ∧
        r1.router = (NewRelay {}).router) :=
  ⟨by decide,
    (C11_refusal_strictly_above_cap fiftyOneChannels "Z"
      { Channel := "late", Type_ := RelayMessage_JOIN } (by decide) (by decide)).1 (by decide),
    (C11_refusal_strictly_above_cap (NewRelay {}) "Z"
      { Channel := "room1", Type_ := RelayMessage_LEAVE } (by decide) rfl).2.1 (by decide)⟩

/-- C12: a RelayMessage whose channel id is the empty string, whatever its
type and payload, is dropped by Process: the relay is returned unchanged, so
no channel is created, nothing is queued in a channel and nothing is sent. -/
theorem C12_empty_channel_id_dropped (r : Relay) (sender : Address) (m : RelayMessage)
    (h : m.Channel = "") :
    r.Process sender (.relayMessage m) = some r ∧
    (∀ r1 : Relay, r.Process sender (.relayMessage m) = some r1 →
      r1.channels = r.channels ∧ r1.router.sent = r.router.sent) := by
  have h1 : r.Process sender (.relayMessage m) = some r := by
    simp only [Relay.Process, RelayMessage.GetChannel, h, if_true]
  refine ⟨h1, ?_⟩
  intro r1 hr
  rw [h1] at hr
  simp only [Option.some.injEq] at hr
  rw [← hr]
  exact ⟨rfl, rfl⟩

/-- Instance of C12: a JOIN without a channel id on a new relay. -/
theorem C12_empty_channel_id_dropped_witness :
    ({ Type_ := RelayMessage_JOIN, Ingress := some ⟨[7]⟩ } : RelayMessage).Channel = "" ∧
    (NewRelay {}).Process "A"
      (.relayMessage { Type_ := RelayMessage_JOIN, Ingress := some ⟨[7]⟩ }) =
        some (NewRelay {}) :=
  ⟨rfl, (C12_empty_channel_id_dropped (NewRelay {}) "A"
    { Type_ := RelayMessage_JOIN, Ingress := some ⟨[7]⟩ } rfl).1⟩

/-- C15: deleteChannel leaves the registry without an entry for the id and
every other entry and the router unchanged; applying it a second time, or
applying it to an id that is not registered, leaves the relay unchanged. -/
theorem C15_deleteChannel_idempotent (r : Relay) (id : String) :
    (r.deleteChannel id).channels.get? id = none ∧
    (∀ k : String, k ≠ id → (r.deleteChannel id).channels.get? k = r.channels.get? k) ∧
    (r.deleteChannel id).router = r.router ∧
    (r.deleteChannel id).deleteChannel id = r.deleteChannel id ∧
    (r.channels.get? id = none → r.deleteChannel id = r) := by
  refine ⟨GoMap.get?_delete_self _ _, fun k hk => GoMap.get?_delete_ne _ _ _ hk, rfl, ?_, ?_⟩
  · have hn : id ∉ (r.channels.delete id).keys := by
      rw [GoMap.mem_keys_delete]
      exact fun h => h.2 rfl
    unfold Relay.deleteChannel
    simp only
    rw [GoMap.delete_of_not_mem _ _ hn]
  · intro h
    have hn : id ∉ r.channels.keys := (GoMap.get?_eq_none_iff _ _).1 h
    unfold Relay.deleteChannel
    rw [GoMap.delete_of_not_mem _ _ hn]

/-- Instance of C15: the deletion of the unregistered id "nowhere" and of the
registered id "room1". -/
theorem C15_deleteChannel_idempotent_witness :
    relayAB.channels.get? "nowhere" = none ∧
    relayAB.deleteChannel "nowhere" = relayAB ∧
    (relayAB.deleteChannel "room1").channels.get? "room1" = none :=
  ⟨by decide, (C15_deleteChannel_idempotent relayAB "nowhere").2.2.2.2 (by decide),
    (C15_deleteChannel_idempotent relayAB "room1").1⟩

/-- C13, as stated, fails: on a new relay the dispatch of a LEAVE, and of an
EGRESS, for the unseen id "room1" returns a relay whose registry has an entry
for "room1". -/
theorem C13_non_join_creates_channel_counterexample :
    ({ Channel := "room1", Type_ := RelayMessage_LEAVE } : RelayMessage).Type_ ≠
      RelayMessage_JOIN ∧
    ({ Channel := "room1", Type_ := RelayMessage_EGRESS } : RelayMessage).Type_ ≠
      RelayMessage_JOIN ∧
    (NewRelay {}).channels.get? "room1" = none ∧
    ((NewRelay {}).Process "A"
      (.relayMessage { Channel := "room1", Type_ := RelayMessage_LEAVE })).map
        (fun r1 => (r1.channels.get? "room1").isSome) = some true ∧
    ((NewRelay {}).Process "A"
      (.relayMessage { Channel := "room1", Type_ := RelayMessage_EGRESS })).map
        (fun r1 => (r1.channels.get? "room1").isSome) = some true := by
  decide

/-- C13 amended: registry entries are added by the first message of any
type.  On a registry of at most MaxChannel channels, the dispatch of a
RelayMessage of any type with a non-empty id that is not registered creates
and registers a new channel, without participant, for that id, changes no
other entry and sends nothing; a message of type EGRESS or JOIN_RESPONSE is
never queued: the new channel is the freshly created one, and a registered
channel is left as it was; a message that is not a RelayMessage changes
nothing. -/
theorem C13_any_type_creates_channel (r : Relay) (sender : Address) (m : RelayMessage)
    (hid : m.Channel ≠ "") (hnew : r.channels.get? m.Channel = none)
    (hcap : r.channels.len ≤ MaxChannel) :
    (∃ (r1 : Relay) (ch1 : channel),
      r.Process sender (.relayMessage m) = some r1 ∧
      r1.channels.get? m.Channel = some ch1 ∧
      (newChannel m.Channel).newMessage sender m = some ch1 ∧
      ch1.participants = [] ∧
      ((m.Type_ = RelayMessage_EGRESS ∨ m.Type_ = RelayMessage_JOIN_RESPONSE) →
        ch1 = newChannel m.Channel) ∧
      (∀ k : String, k ≠ m.Channel → r1.channels.get? k = r.channels.get? k) ∧
      r1.router = r.router) ∧
    (∀ (r2 : Relay) (m2 : RelayMessage) (ch : channel),
      m2.Channel ≠ "" → r2.channels.get? m2.Channel = some ch →
      (m2.Type_ = RelayMessage_EGRESS ∨ m2.Type_ = RelayMessage_JOIN_RESPONSE) →
      ∃ r3 : Relay, r2.Process sender (.relayMessage m2) = some r3 ∧
        (∀ k : String, r3.channels.get? k = r2.channels.get? k) ∧ r3.router = r2.router) ∧
    r.Process sender .unknown = some r := by
  refine ⟨?_, ?_, rfl⟩
  · obtain ⟨ch1, hq, hp, he⟩ := newMessage_new m.Channel sender m
    refine ⟨_, ch1, Process_new_id r sender m hid hnew (Nat.not_lt.2 hcap) ch1 hq,
      GoMap.get?_set_self _ _ _, hq, hp, he, ?_, rfl⟩
    intro k hk
    simp only
    rw [GoMap.get?_set_ne _ _ _ _ hk, GoMap.get?_set_ne _ _ _ _ hk]
  · intro r2 m2 ch hid2 hg hty
    have hq : ch.newMessage sender m2 = some ch := by
      rcases hty with hty | hty <;> simp [channel.newMessage, RelayMessage.GetType, hty]
    refine ⟨r2.store m2.Channel ch, ?_, ?_, store_router _ _ _⟩
    · simp only [Relay.Process, RelayMessage.GetChannel, hid2, if_false, hg, hq,
        Option.map_some']
    · intro k
      by_cases hk : k = m2.Channel
      · rw [hk, store_get?_self _ _ _ (contains_of_get? _ _ _ hg), hg]
      · exact store_get?_ne _ _ _ _ hk

/-- Instance of C13 amended: an INGRESS for the unseen id "room2" on the
relay of "room1". -/
theorem C13_any_type_creates_channel_witness :
    (({ Channel := "room2", Type_ := RelayMessage_INGRESS } : RelayMessage).Channel ≠ "" ∧
      relayAB.channels.get? "room2" = none ∧ relayAB.channels.len ≤ MaxChannel) ∧
    (∃ (r1 : Relay) (ch1 : channel),
      relayAB.Process "Z"
        (.relayMessage { Channel := "room2", Type_ := RelayMessage_INGRESS }) = some r1 ∧
      r1.channels.get? "room2" = some ch1 ∧
      (newChannel "room2").newMessage "Z"
        { Channel := "room2", Type_ := RelayMessage_INGRESS } = some ch1 ∧
      ch1.participants = [] ∧
      ((({ Channel := "room2", Type_ := RelayMessage_INGRESS } : RelayMessage).Type_ =
          RelayMessage_EGRESS ∨
        ({ Channel := "room2", Type_ := RelayMessage_INGRESS } : RelayMessage).Type_ =
          RelayMessage_JOIN_RESPONSE) →
        ch1 = newChannel "room2") ∧
      (∀ k : String, k ≠ "room2" → r1.channels.get? k = relayAB.channels.get? k) ∧
      r1.router = relayAB.router) :=
  ⟨by decide,
    (C13_any_type_creates_channel relayAB "Z"
      { Channel := "room2", Type_ := RelayMessage_INGRESS } (by decide) (by decide)
      (by decide)).1⟩

/-- C17: the blob is not interpreted.  For every relay, channel, sender and
pair of blobs, handling the INGRESS of the one and of the other blob gives
the same channel state and the same registry, and the sends go to the same
recipients in the same order, each EGRESS carrying the blob of its run
unmodified. -/
theorem C17_blob_not_interpreted (r : Relay) (ch : channel) (sender : Address)
    (b1 b2 : Blob) :
    (ch.processCase r (.incoming ⟨sender, some ⟨b1⟩⟩)).2 =
      (ch.processCase r (.incoming ⟨sender, some ⟨b2⟩⟩)).2 ∧
    (ch.processCase r (.incoming ⟨sender, some ⟨b1⟩⟩)).1.channels =
      (ch.processCase r (.incoming ⟨sender, some ⟨b2⟩⟩)).1.channels ∧
    (∃ dests : List Address,
      (ch.processCase r (.incoming ⟨sender, some ⟨b1⟩⟩)).1.router.sent =
        r.router.sent ++ dests.map (fun c => (c,
          { Channel := ch.id, Type_ := RelayMessage_EGRESS, Egress := some { Blob := b1 } })) ∧
      (ch.processCase r (.incoming ⟨sender, some ⟨b2⟩⟩)).1.router.sent =
        r.router.sent ++ dests.map (fun c => (c,
          { Channel := ch.id, Type_ := RelayMessage_EGRESS, Egress := some { Blob := b2 } }))) := by
  by_cases hc : ch.clients.contains sender = true
  · refine ⟨?_, ?_, ch.clients.keys.filter (fun c => decide (c ≠ sender)), ?_, ?_⟩
    · simp only [channel.processCase, hc, Bool.not_true, Bool.false_eq_true, if_false]
    · simp only [channel.processCase, hc, Bool.not_true, Bool.false_eq_true, if_false]
    · simp only [channel.processCase, hc, Bool.not_true, Bool.false_eq_true, if_false]
      rw [rangeClients_sent]
      rfl
    · simp only [channel.processCase, hc, Bool.not_true, Bool.false_eq_true, if_false]
      rw [rangeClients_sent]
      rfl
  · refine ⟨?_, ?_, [], ?_, ?_⟩ <;>
      simp only [channel.processCase, hc, Bool.not_false, if_true, List.map_nil,
        List.append_nil]

/-! ## Transport failures -/

/-- C18: transport send failures never change what the channel does.  For
every relay, channel and assignment `o` of success or error to the coming
Send calls, handling an INGRESS or a JOIN gives the same channel state (so
the same participant set), the same registry and the same sequence of
attempted sends as when every send succeeds; for an INGRESS from a
participant a send is attempted to every other participant; and the actor
keeps running. -/
theorem C18_send_failures_ignored (r : Relay) (ch : channel) (o : List Bool)
    (addr : Address) (msg : Option Ingress) :
    (ch.processCase (r.withOutcomes o) (.incoming ⟨addr, msg⟩)).2 =
      (ch.processCase (r.withOutcomes []) (.incoming ⟨addr, msg⟩)).2 ∧
    (ch.processCase (r.withOutcomes o) (.incoming ⟨addr, msg⟩)).1.router.sent =
      (ch.processCase (r.withOutcomes []) (.incoming ⟨addr, msg⟩)).1.router.sent ∧
    (ch.processCase (r.withOutcomes o) (.incoming ⟨addr, msg⟩)).1.channels = r.channels ∧
    (addr ∈ ch.participants →
      (ch.processCase (r.withOutcomes o) (.incoming ⟨addr, msg⟩)).1.router.sent.map Prod.fst =
        r.router.sent.map Prod.fst ++ ch.participants.filter (fun c => decide (c ≠ addr))) ∧
    (ch.processCase (r.withOutcomes o) (.incoming ⟨addr, msg⟩)).2.returned = ch.returned ∧
    (ch.processCase (r.withOutcomes o) (.join addr)).2 =
      (ch.processCase (r.withOutcomes []) (.join addr)).2 ∧
    (ch.processCase (r.withOutcomes o) (.join addr)).1.router.sent =
      (ch.processCase (r.withOutcomes []) (.join addr)).1.router.sent ∧
    (ch.processCase (r.withOutcomes o) (.join addr)).1.channels = r.channels ∧
    (ch.processCase (r.withOutcomes o) (.join addr)).2.returned = ch.returned := by
  have hjoin : ∀ r' : Relay, (ch.processCase r' (.join addr)).2.returned = ch.returned := by
    intro r'
    simp only [channel.processCase, channel.addClient]
    by_cases hc : ch.clients.contains addr = true
    · simp only [hc, if_true]
    · by_cases hl : ch.clients.len < ChannelSize
      · simp only [hc, hl, Bool.false_eq_true, if_false, if_true]
      · simp only [hc, hl, Bool.false_eq_true, if_false]
  refine ⟨?_, ?_, ?_, ?_, ?_, rfl, rfl, rfl, hjoin _⟩
  · by_cases hc : ch.clients.contains addr = true
    · simp only [channel.processCase, hc, Bool.not_true, Bool.false_eq_true, if_false]
    · simp only [channel.processCase, hc, Bool.not_false, if_true]
  · by_cases hc : ch.clients.contains addr = true
    · simp only [channel.processCase, hc, Bool.not_true, Bool.false_eq_true, if_false,
        Relay.withOutcomes]
      rw [rangeClients_sent, rangeClients_sent]
    · simp only [channel.processCase, hc, Bool.not_false, if_true, Relay.withOutcomes]
  · by_cases hc : ch.clients.contains addr = true
    · simp only [channel.processCase, hc, Bool.not_true, Bool.false_eq_true, if_false,
        Relay.withOutcomes]
    · simp only [channel.processCase, hc, Bool.not_false, if_true, Relay.withOutcomes]
  · intro hp
    have hc : ch.clients.contains addr = true := (GoMap.contains_iff _ _).2 hp
    simp only [channel.processCase, hc, Bool.not_true, Bool.false_eq_true, if_false,
      Relay.withOutcomes]
    rw [rangeClients_sent]
    simp only [List.map_append, List.map_map, Function.comp_def, List.map_id']
    rfl
  · by_cases hc : ch.clients.contains addr = true
    · simp only [channel.processCase, hc, Bool.not_true, Bool.false_eq_true, if_false]
    · simp only [channel.processCase, hc, Bool.not_false, if_true]

/-- Instance of C18: A broadcasts in "room1" while the single send fails. -/
theorem C18_send_failures_ignored_witness :
    "A" ∈ roomAB.participants ∧
    (roomAB.processCase (relayAB.withOutcomes [true]) (.incoming ⟨"A", some ⟨[1]⟩⟩)).1.router.sent.map
        Prod.fst =
      relayAB.router.sent.map Prod.fst ++
        roomAB.participants.filter (fun c => decide (c ≠ "A")) :=
  ⟨by decide,
    (C18_send_failures_ignored relayAB roomAB [true] "A" (some ⟨[1]⟩)).2.2.2.1 (by decide)⟩

/-! ## Loops over the registry -/

/-- The loop over the registered channels, when no body fails: every visited
channel is replaced by the result of the body, nothing else changes. -/
theorem rangeChannels_spec (f : String → channel → Option channel) (ids : List String)
    (r : Relay) (hn : ids.Nodup)
    (hf : ∀ id ∈ ids, ∀ ch : channel, r.channels.get? id = some ch →
      ∃ ch1 : channel, f id ch = some ch1) :
    ∃ r1 : Relay, Relay.rangeChannels f r ids = some r1 ∧
      r1.router = r.router ∧ r1.channels.keys = r.channels.keys ∧
      ∀ k : String, r1.channels.get? k =
        if k ∈ ids then (r.channels.get? k).bind (f k) else r.channels.get? k := by
  induction ids generalizing r with
  | nil => exact ⟨r, rfl, rfl, rfl, fun k => by simp⟩
  | cons id ids ih =>
    have hid : id ∉ ids := (List.nodup_cons.1 hn).1
    have hn2 : ids.Nodup := (List.nodup_cons.1 hn).2
    cases hg : r.channels.get? id with
    | none =>
      obtain ⟨r1, h1, h2, h3, h4⟩ := ih r hn2
        (fun id' hm ch hc => hf id' (List.mem_cons_of_mem _ hm) ch hc)
      refine ⟨r1, ?_, h2, h3, ?_⟩
      · simp only [Relay.rangeChannels, hg]
        exact h1
      · intro k
        by_cases hk : k = id
        · subst hk
          rw [h4 k]
          simp [hid, hg]
        · rw [h4 k]
          simp [hk]
    | some ch =>
      obtain ⟨ch1, hch1⟩ := hf id (List.mem_cons_self _ _) ch hg
      have hcont : r.channels.contains id = true := contains_of_get? _ _ _ hg
      obtain ⟨r1, h1, h2, h3, h4⟩ := ih (r.store id ch1) hn2 (by
        intro id' hm ch' hc
        have hne : id' ≠ id := fun e => hid (e ▸ hm)
        rw [store_get?_ne _ _ _ _ hne] at hc
        exact hf id' (List.mem_cons_of_mem _ hm) ch' hc)
      refine ⟨r1, ?_, ?_, ?_, ?_⟩
      · simp only [Relay.rangeChannels, hg, hch1]
        exact h1
      · rw [h2, store_router]
      · rw [h3, store_keys]
      · intro k
        by_cases hk : k = id
        · subst hk
          rw [h4 k]
          simp [hid, hg, store_get?_self _ _ _ hcont, hch1]
        · rw [h4 k, store_get?_ne _ _ _ _ hk]
          simp [hk]

/-- A property of channels kept by the body of the loop is kept by the loop. -/
theorem rangeChannels_inv (P : channel → Prop) (f : String → channel → Option channel)
    (hP : ∀ (id : String) (ch ch1 : channel), P ch → f id ch = some ch1 → P ch1)
    (ids : List String) (r r1 : Relay)
    (hr : ∀ (k : String) (ch : channel), r.channels.get? k = some ch → P ch)
    (h : Relay.rangeChannels f r ids = some r1) :
    ∀ (k : String) (ch : channel), r1.channels.get? k = some ch → P ch := by
  induction ids generalizing r with
  | nil =>
    simp only [Relay.rangeChannels, Option.some.injEq] at h
    rw [← h]; exact hr
  | cons id ids ih =>
    unfold Relay.rangeChannels at h
    cases hg : r.channels.get? id with
    | none =>
      rw [hg] at h
      exact ih r hr h
    | some ch =>
      rw [hg] at h
      simp only at h
      cases hf : f id ch with
      | none => rw [hf] at h; simp at h
      | some ch1 =>
        rw [hf] at h
        simp only at h
        refine ih _ ?_ h
        intro k ch' hk
        by_cases hkid : k = id
        · subst hkid
          rw [store_get?_self _ _ _ (contains_of_get? _ _ _ hg)] at hk
          simp only [Option.some.injEq] at hk
          rw [← hk]
          exact hP k ch ch1 (hr k ch hg) hf
        · rw [store_get?_ne _ _ _ _ hkid] at hk
          exact hr k ch' hk

/-! ## The stop signal is closed only on a channel that is done -/

theorem newMessage_flags (ch ch1 : channel) (sender : Address) (m : RelayMessage)
    (h : ch.newMessage sender m = some ch1) :
    ch1.finished = ch.finished ∧ ch1.done = ch.done ∧ ch1.clients = ch.clients ∧
      ch1.returned = ch.returned ∧ ch1.id = ch.id := by
  unfold channel.newMessage chanSend at h
  cases hty : m.GetType <;> rw [hty] at h <;> simp only at h
  · by_cases hl : ch.join.length < ChannelQueueSize
    · simp only [hl, if_true, Option.map_some', Option.some.injEq] at h
      rw [← h]; exact ⟨rfl, rfl, rfl, rfl, rfl⟩
    · simp [hl] at h
  · by_cases hl : ch.leave.length < ChannelQueueSize
    · simp only [hl, if_true, Option.map_some', Option.some.injEq] at h
      rw [← h]; exact ⟨rfl, rfl, rfl, rfl, rfl⟩
    · simp [hl] at h
  · by_cases hl : ch.incoming.length < ChannelQueueSize
    · simp only [hl, if_true, Option.map_some', Option.some.injEq] at h
      rw [← h]; exact ⟨rfl, rfl, rfl, rfl, rfl⟩
    · simp [hl] at h
  · simp only [Option.some.injEq] at h
    rw [← h]; exact ⟨rfl, rfl, rfl, rfl, rfl⟩
  · simp only [Option.some.injEq] at h
    rw [← h]; exact ⟨rfl, rfl, rfl, rfl, rfl⟩

theorem select_flags (ch ch1 : channel) (c : SelectCase) (ev : Received)
    (h : ch.select c = some (ev, ch1)) :
    ch1.finished = ch.finished ∧ ch1.done = ch.done ∧ ch1.clients = ch.clients := by
  cases c with
  | finished =>
    unfold channel.select at h
    by_cases hf : ch.finished = true
    · simp only [hf, if_true, Option.some.injEq, Prod.mk.injEq] at h
      rw [← h.2]; exact ⟨rfl, rfl, rfl⟩
    · simp [hf] at h
  | join =>
    unfold channel.select at h
    cases hq : ch.join with
    | nil => rw [hq] at h; simp at h
    | cons a q =>
      rw [hq] at h
      simp only [Option.some.injEq, Prod.mk.injEq] at h
      rw [← h.2]; exact ⟨rfl, rfl, rfl⟩
  | leave =>
    unfold channel.select at h
    cases hq : ch.leave with
    | nil => rw [hq] at h; simp at h
    | cons a q =>
      rw [hq] at h
      simp only [Option.some.injEq, Prod.mk.injEq] at h
      rw [← h.2]; exact ⟨rfl, rfl, rfl⟩
  | incoming =>
    unfold channel.select at h
    cases hq : ch.incoming with
    | nil => rw [hq] at h; simp at h
    | cons a q =>
      rw [hq] at h
      simp only [Option.some.injEq, Prod.mk.injEq] at h
      rw [← h.2]; exact ⟨rfl, rfl, rfl⟩

theorem processCase_closed_done (r : Relay) (ch : channel) (e : Received)
    (h : ch.finished = true → ch.done = true) :
    (ch.processCase r e).2.finished = true → (ch.processCase r e).2.done = true := by
  cases e with
  | finished => exact h
  | join addr =>
    simp only [channel.processCase, channel.addClient]
    by_cases hc : ch.clients.contains addr = true
    · simp only [hc, if_true]; exact h
    · by_cases hl : ch.clients.len < ChannelSize
      · simp only [hc, hl, Bool.false_eq_true, if_false, if_true]; exact h
      · simp only [hc, hl, Bool.false_eq_true, if_false]; exact h
  | leave addr =>
    unfold channel.processCase
    by_cases h0 : (ch.clients.delete addr).len = 0
    · simp only [h0, if_true, channel.setDone]
      exact fun _ => trivial
    · simp only [h0, if_false]
      exact h
  | incoming info =>
    unfold channel.processCase
    by_cases hc : ch.clients.contains info.address = true
    · simp only [hc, Bool.not_true, Bool.false_eq_true, if_false]; exact h
    · simp only [hc, Bool.not_false, if_true]; exact h

/-- On a channel whose stop signal is closed only if it is done, `stop` does
not panic: it returns the channel itself when done, and otherwise the channel
with `done` set and the signal closed. -/
theorem stop_of_closed_done (ch : channel) (h : ch.finished = true → ch.done = true) :
    ch.stop = some (if ch.done then ch else { ch with done := true, finished := true }) := by
  unfold channel.stop channel.isDone chanClose channel.setDone
  by_cases hd : ch.done = true
  · simp only [hd, if_true]
  · have hf : ch.finished = false := by
      cases hfin : ch.finished with
      | false => rfl
      | true => exact absurd (h hfin) hd
    simp [hd, hf]

theorem stop_closed_done (ch ch1 : channel) (h : ch.finished = true → ch.done = true)
    (hs : ch.stop = some ch1) : ch1.finished = true → ch1.done = true := by
  rw [stop_of_closed_done ch h] at hs
  simp only [Option.some.injEq] at hs
  rw [← hs]
  by_cases hd : ch.done = true
  · simp only [hd, if_true]; exact fun _ => trivial
  · simp only [hd, Bool.false_eq_true, if_false]
    exact fun _ => trivial

theorem runOps_closed_done (ops : List ChannelOp) (r : Relay) (ch : channel)
    (h : ch.finished = true → ch.done = true) :
    ∃ res : Relay × channel, ch.runOps r ops = some res ∧
      (res.2.finished = true → res.2.done = true) := by
  induction ops generalizing r ch with
  | nil => exact ⟨(r, ch), rfl, h⟩
  | cons op ops ih =>
    cases op with
    | stop =>
      obtain ⟨res, h1, h2⟩ := ih r _ (stop_closed_done ch _ h (stop_of_closed_done ch h))
      refine ⟨res, ?_, h2⟩
      simp only [channel.runOps, stop_of_closed_done ch h]
      exact h1
    | receive e =>
      by_cases hr : ch.returned = true
      · obtain ⟨res, h1, h2⟩ := ih r ch h
        refine ⟨res, ?_, h2⟩
        simp only [channel.runOps, hr, if_true]
        exact h1
      · obtain ⟨res, h1, h2⟩ := ih (ch.processCase r e).1 (ch.processCase r e).2
          (processCase_closed_done r ch e h)
        refine ⟨res, ?_, h2⟩
        simp only [channel.runOps, hr, Bool.false_eq_true, if_false]
        exact h1

/-- C16: on a channel that is already done, stop is a no-op: it returns the
channel unchanged, so the finished signal is not closed; stop after stop is
stop; and over any sequence of stop calls and loop iterations (with the
self-termination on an emptying LEAVE) from a new channel there is no
double close, that is, the finished signal is closed at most once, and the
signal is closed only on a channel that is done. -/
theorem C16_stop_idempotent (r : Relay) (ch : channel) (id : String) (ops : List ChannelOp) :
    (ch.done = true → ch.stop = some ch) ∧
    ch.stop.bind channel.stop = ch.stop ∧
    (∃ res : Relay × channel, (newChannel id).runOps r ops = some res ∧
      (res.2.finished = true → res.2.done = true) ∧
      res.2.stop.isSome = true) := by
  refine ⟨?_, ?_, ?_⟩
  · intro hd
    simp only [channel.stop, channel.isDone, hd, if_true]
  · unfold channel.stop channel.isDone chanClose channel.setDone
    by_cases hd : ch.done = true
    · simp [hd]
    · by_cases hf : ch.finished = true
      · simp [hd, hf]
      · simp [hd, hf]
  · obtain ⟨res, h1, h2⟩ := runOps_closed_done ops r (newChannel id) (fun h => by cases h)
    refine ⟨res, h1, h2, ?_⟩
    rw [stop_of_closed_done _ h2]
    rfl

/-- Instance of C16: the participant B leaves "room1", which sets done, and
stop is then called twice. -/
theorem C16_stop_idempotent_witness :
    (roomB.processCase relayAB (.leave "B")).2.done = true ∧
    (roomB.processCase relayAB (.leave "B")).2.stop =
      some (roomB.processCase relayAB (.leave "B")).2 ∧
    (roomB.processCase relayAB (.leave "B")).2.finished = false :=
  ⟨by decide,
    (C16_stop_idempotent relayAB (roomB.processCase relayAB (.leave "B")).2 "room1" []).1
      (by decide),
    by decide⟩

theorem get?_delete_some (m : GoMap String channel) (a k : String) (ch : channel)
    (h : (m.delete a).get? k = some ch) : m.get? k = some ch := by
  by_cases hk : k = a
  · rw [hk, GoMap.get?_delete_self] at h
    cases h
  · rw [GoMap.get?_delete_ne _ _ _ hk] at h
    exact h

theorem processCase_channels_sub (r : Relay) (ch : channel) (e : Received) (k : String)
    (ch' : channel) (h : (ch.processCase r e).1.channels.get? k = some ch') :
    r.channels.get? k = some ch' := by
  cases e with
  | finished => exact h
  | join addr => exact h
  | leave addr =>
    unfold channel.processCase at h
    by_cases h0 : (ch.clients.delete addr).len = 0
    · simp only [h0, if_true, Relay.deleteChannel] at h
      exact get?_delete_some _ _ _ _ h
    · simp only [h0, if_false] at h
      exact h
  | incoming info =>
    unfold channel.processCase at h
    by_cases hc : ch.clients.contains info.address = true
    · simp only [hc, Bool.not_true, Bool.false_eq_true, if_false] at h
      exact h
    · simp only [hc, Bool.not_false, if_true] at h
      exact h

/-- Every step of the relay keeps the property that the stop signal of a
registered channel is closed only if the channel is done. -/
theorem step_closed_done (r r1 : Relay) (s : RelayStep) (h : r.step s = some r1)
    (hr : ∀ (k : String) (ch : channel), r.channels.get? k = some ch →
      ch.finished = true → ch.done = true) :
    ∀ (k : String) (ch : channel), r1.channels.get? k = some ch →
      ch.finished = true → ch.done = true := by
  cases s with
  | Process sender msg =>
    cases msg with
    | unknown =>
      simp only [Relay.step, Relay.Process, Option.some.injEq] at h
      rw [← h]; exact hr
    | relayMessage m =>
      by_cases hid : m.Channel = ""
      · simp only [Relay.step, Relay.Process, RelayMessage.GetChannel, hid, if_true,
          Option.some.injEq] at h
        rw [← h]; exact hr
      · cases hg : r.channels.get? m.Channel with
        | some ch =>
          simp only [Relay.step, Relay.Process, RelayMessage.GetChannel, hid, if_false, hg] at h
          cases hq : ch.newMessage sender m with
          | none => rw [hq] at h; simp at h
          | some ch1 =>
            rw [hq] at h
            simp only [Option.map_some', Option.some.injEq] at h
            rw [← h]
            intro k ch' hk
            by_cases hkid : k = m.Channel
            · rw [hkid, store_get?_self _ _ _ (contains_of_get? _ _ _ hg)] at hk
              simp only [Option.some.injEq] at hk
              have hfl := newMessage_flags ch ch1 sender m hq
              rw [← hk, hfl.1, hfl.2.1]
              exact hr _ ch hg
            · rw [store_get?_ne _ _ _ _ hkid] at hk
              exact hr k ch' hk
        | none =>
          by_cases hcap : r.channels.len > MaxChannel
          · simp only [Relay.step] at h
            rw [Process_too_many r sender m hid hg hcap] at h
            simp only [Option.some.injEq] at h
            rw [← h]; exact hr
          · obtain ⟨ch1, hq, _, _⟩ := newMessage_new m.Channel sender m
            simp only [Relay.step] at h
            rw [Process_new_id r sender m hid hg hcap ch1 hq] at h
            simp only [Option.some.injEq] at h
            rw [← h]
            intro k ch' hk
            simp only at hk
            by_cases hkid : k = m.Channel
            · rw [hkid, GoMap.get?_set_self] at hk
              simp only [Option.some.injEq] at hk
              have hfl := newMessage_flags _ ch1 sender m hq
              rw [← hk, hfl.1]
              intro hf
              cases hf
            · rw [GoMap.get?_set_ne _ _ _ _ hkid, GoMap.get?_set_ne _ _ _ _ hkid] at hk
              exact hr k ch' hk
  | deleteChannel id =>
    simp only [Relay.step, Option.some.injEq] at h
    rw [← h]
    intro k ch hk
    exact hr k ch (get?_delete_some _ _ _ _ hk)
  | schedule id c =>
    simp only [Relay.step, Relay.schedule] at h
    cases hg : r.channels.get? id with
    | none => rw [hg] at h; simp at h
    | some ch =>
      rw [hg] at h
      simp only at h
      by_cases hret : ch.returned = true
      · simp [hret] at h
      · simp only [hret, Bool.false_eq_true, if_false] at h
        cases hs : ch.select c with
        | none => rw [hs] at h; simp at h
        | some p =>
          obtain ⟨ev, ch1⟩ := p
          rw [hs] at h
          simp only [Option.some.injEq] at h
          have hfl := select_flags ch ch1 c ev hs
          have hch1 : ch1.finished = true → ch1.done = true := by
            rw [hfl.1, hfl.2.1]
            exact hr id ch hg
          rw [← h]
          intro k ch' hk
          by_cases hkid : k = id
          · by_cases hcont : (ch1.processCase r ev).1.channels.contains id = true
            · rw [hkid, store_get?_self _ _ _ hcont] at hk
              simp only [Option.some.injEq] at hk
              rw [← hk]
              exact processCase_closed_done r ch1 ev hch1
            · simp only [Relay.store, hcont, Bool.false_eq_true, if_false] at hk
              exact hr k ch' (processCase_channels_sub r ch1 ev k ch' hk)
          · rw [store_get?_ne _ _ _ _ hkid] at hk
            exact hr k ch' (processCase_channels_sub r ch1 ev k ch' hk)
  | Receive e =>
    cases e with
    | unknown name =>
      simp only [Relay.step, Relay.Receive, Option.some.injEq] at h
      rw [← h]; exact hr
    | EventDown addr =>
      simp only [Relay.step, Relay.Receive, leaveChannels_eq] at h
      refine rangeChannels_inv (fun ch => ch.finished = true → ch.done = true) _ ?_ _ r r1 hr h
      intro id ch ch1 hP hq
      have hfl := newMessage_flags ch ch1 addr _ hq
      rw [hfl.1, hfl.2.1]
      exact hP
  | Stop =>
    simp only [Relay.step, Relay.Stop, stopChannels_eq] at h
    refine rangeChannels_inv (fun ch => ch.finished = true → ch.done = true) _ ?_ _
      { r with router := r.router.Stop } r1 hr h
    intro id ch ch1 hP hq
    exact stop_closed_done ch ch1 hP hq

theorem run_closed_done (ss : List RelayStep) (r r1 : Relay) (h : r.run ss = some r1)
    (hr : ∀ (k : String) (ch : channel), r.channels.get? k = some ch →
      ch.finished = true → ch.done = true) :
    ∀ (k : String) (ch : channel), r1.channels.get? k = some ch →
      ch.finished = true → ch.done = true := by
  induction ss generalizing r with
  | nil =>
    simp only [Relay.run, Option.some.injEq] at h
    rw [← h]; exact hr
  | cons s ss ih =>
    unfold Relay.run at h
    cases hs : r.step s with
    | none => rw [hs] at h; simp at h
    | some r2 =>
      rw [hs] at h
      exact ih r2 h (step_closed_done r r2 s hs hr)

/-! ## Disconnect and shutdown -/

/-- C14, as stated, fails: "room1" has just been created by the JOIN of B,
which is still queued, so A is not a participant; after the connection-down
event of A the actor handles the LEAVE of A, sets done, returns and the
channel is no longer registered. -/
theorem C14_leave_stops_empty_channel_counterexample :
    "A" ∉ ({ newChannel "room1" with join := ["B"] } : channel).participants ∧
    ((NewRelay {}).run
      [.Process "B" (.relayMessage { Channel := "room1", Type_ := RelayMessage_JOIN }),
       .Receive (.EventDown "A")]).map (fun r1 => r1.channels.get? "room1") =
      some (some { newChannel "room1" with join := ["B"], leave := ["A"] }) ∧
    ((NewRelay {}).run
      [.Process "B" (.relayMessage { Channel := "room1", Type_ := RelayMessage_JOIN }),
       .Receive (.EventDown "A"),
       .schedule "room1" .leave]).map (fun r1 => r1.channels.get? "room1") = some none ∧
    (({ newChannel "room1" with join := ["B"] } : channel).processCase (NewRelay {})
      (.leave "A")).2.done = true ∧
    (({ newChannel "room1" with join := ["B"] } : channel).processCase (NewRelay {})
      (.leave "A")).2.returned = true := by
  decide

/-- C14 amended: when no registered channel has a full leave queue, Receive
on the connection-down event of `a` appends exactly one LEAVE of `a` to the
leave queue of every registered channel and changes nothing else, and it
does nothing for an event of another name; for a channel that has at least
one participant and of which `a` is not a participant, handling that LEAVE
is a no-op (relay and channel unchanged, so the channel stays registered and
running); a channel without participant sets done, is removed from the
registry and returns. -/
theorem C14_disconnect_broadcasts_leave (r : Relay) (a : Address)
    (hroom : ∀ (id : String) (ch : channel), r.channels.get? id = some ch →
      ch.leave.length < ChannelQueueSize) :
    (∃ r1 : Relay, r.Receive (.EventDown a) = some r1 ∧
      r1.router = r.router ∧ r1.channels.keys = r.channels.keys ∧
      ∀ (id : String) (ch : channel), r.channels.get? id = some ch →
        r1.channels.get? id = some { ch with leave := ch.leave ++ [a] }) ∧
    (∀ name : String, r.Receive (.unknown name) = some r) ∧
    (∀ (r2 : Relay) (ch : channel), a ∉ ch.participants → ch.participants ≠ [] →
      ch.processCase r2 (.leave a) = (r2, ch)) ∧
    (∀ (r2 : Relay) (ch : channel), ch.participants = [] →
      (ch.processCase r2 (.leave a)).2.done = true ∧
      (ch.processCase r2 (.leave a)).2.returned = true ∧
      (ch.processCase r2 (.leave a)).1.channels.get? ch.id = none) := by
  refine ⟨?_, fun _ => rfl, ?_, ?_⟩
  · have hq : ∀ (id : String) (ch : channel), r.channels.get? id = some ch →
        ch.newMessage a { Channel := id, Type_ := RelayMessage_LEAVE } =
          some { ch with leave := ch.leave ++ [a] } := by
      intro id ch hg
      simp [channel.newMessage, RelayMessage.GetType, chanSend, hroom id ch hg]
    obtain ⟨r1, h1, h2, h3, h4⟩ := rangeChannels_spec
      (fun id ch => ch.newMessage a { Channel := id, Type_ := RelayMessage_LEAVE })
      r.channels.keys r r.channels.nodup_keys
      (fun id _ ch hg => ⟨_, hq id ch hg⟩)
    refine ⟨r1, ?_, h2, h3, ?_⟩
    · simp only [Relay.Receive, leaveChannels_eq]
      exact h1
    · intro id ch hg
      have hk : id ∈ r.channels.keys :=
        (GoMap.contains_iff _ _).1 (contains_of_get? _ _ _ hg)
      rw [h4 id, if_pos hk, hg]
      exact hq id ch hg
  · intro r2 ch ha hne
    have hd : ch.clients.delete a = ch.clients := GoMap.delete_of_not_mem _ _ ha
    have h0 : ¬ ch.clients.len = 0 := fun h => hne ((participants_eq_nil_iff ch).2 h)
    simp only [channel.processCase, hd, h0, if_false]
  · intro r2 ch hnil
    have hn : a ∉ ch.clients.keys := by
      have : ch.clients.keys = [] := hnil
      rw [this]
      exact List.not_mem_nil a
    have hd : ch.clients.delete a = ch.clients := GoMap.delete_of_not_mem _ _ hn
    have h0 : ch.clients.len = 0 := (participants_eq_nil_iff ch).1 hnil
    simp only [channel.processCase, hd, h0, if_true, channel.setDone, Relay.deleteChannel,
      true_and]
    exact GoMap.get?_delete_self _ _

/-- Instance of C14 amended: the connection-down event of Z on the relay of
"room1", whose channel has the participants A and B. -/
theorem C14_disconnect_broadcasts_leave_witness :
    (∀ (id : String) (ch : channel), relayAB.channels.get? id = some ch →
      ch.leave.length < ChannelQueueSize) ∧
    ("Z" ∉ roomAB.participants ∧ roomAB.participants ≠ []) ∧
    (∃ r1 : Relay, relayAB.Receive (.EventDown "Z") = some r1 ∧
      r1.router = relayAB.router ∧ r1.channels.keys = relayAB.channels.keys ∧
      ∀ (id : String) (ch : channel), relayAB.channels.get? id = some ch →
        r1.channels.get? id = some { ch with leave := ch.leave ++ ["Z"] }) ∧
    roomAB.processCase relayAB (.leave "Z") = (relayAB, roomAB) := by
  have hroom : ∀ (id : String) (ch : channel), relayAB.channels.get? id = some ch →
      ch.leave.length < ChannelQueueSize := by
    intro id ch hg
    by_cases hid : id = "room1"
    · subst hid
      have : relayAB.channels.get? "room1" = some roomAB := by decide
      rw [this] at hg
      simp only [Option.some.injEq] at hg
      rw [← hg]
      decide
    · have : relayAB.channels.get? id = none := by
        unfold relayAB
        rw [GoMap.get?_set_ne _ _ _ _ hid]
        rfl
      rw [this] at hg
      cases hg
  exact ⟨hroom, by decide, (C14_disconnect_broadcasts_leave relayAB "Z" hroom).1,
    (C14_disconnect_broadcasts_leave relayAB "Z" hroom).2.2.1 relayAB roomAB (by decide)
      (by decide)⟩

/-- C19: on a relay in which the stop signal of a registered channel is
closed only if the channel is done, which holds in every state reached from
a new relay, Stop returns and afterwards the router has been stopped, the
registry has the same ids, every registered channel is done, its
participant set is unchanged, a channel that was already done is left
exactly as it was (its finished signal is not closed by the call), and a
channel that was not done has its finished signal closed. -/
theorem C19_Stop_stops_every_channel (r : Relay)
    (hr : ∀ (id : String) (ch : channel), r.channels.get? id = some ch →
      ch.finished = true → ch.done = true) :
    (∃ r1 : Relay, r.Stop = some r1 ∧
      r1.router.stopped = true ∧ r1.router.sent = r.router.sent ∧
      r1.channels.keys = r.channels.keys ∧
      ∀ (id : String) (ch : channel), r.channels.get? id = some ch →
        ∃ ch1 : channel, r1.channels.get? id = some ch1 ∧
          ch1.done = true ∧ ch1.clients = ch.clients ∧
          (ch.done = true → ch1 = ch) ∧
          (ch.done = false → ch1 = { ch with done := true, finished := true })) ∧
    (∀ (rt : Router) (ss : List RelayStep) (r2 : Relay), (NewRelay rt).run ss = some r2 →
      ∀ (id : String) (ch : channel), r2.channels.get? id = some ch →
        ch.finished = true → ch.done = true) := by
  constructor
  · obtain ⟨r1, h1, h2, h3, h4⟩ := rangeChannels_spec (fun _ ch => ch.stop)
      r.channels.keys { r with router := r.router.Stop } r.channels.nodup_keys
      (fun id _ ch hg => ⟨_, stop_of_closed_done ch (hr id ch hg)⟩)
    refine ⟨r1, ?_, ?_, ?_, h3, ?_⟩
    · simp only [Relay.Stop, stopChannels_eq]
      exact h1
    · rw [h2]; rfl
    · rw [h2]; rfl
    · intro id ch hg
      have hk : id ∈ r.channels.keys :=
        (GoMap.contains_iff _ _).1 (contains_of_get? _ _ _ hg)
      have h5 := h4 id
      simp only [hk, if_true, hg, Option.some_bind] at h5
      rw [stop_of_closed_done ch (hr id ch hg)] at h5
      refine ⟨_, h5, ?_, ?_, ?_, ?_⟩
      · by_cases hd : ch.done = true
        · simp only [hd, if_true]
        · simp only [hd, Bool.false_eq_true, if_false]
      · by_cases hd : ch.done = true
        · simp only [hd, if_true]
        · simp only [hd, Bool.false_eq_true, if_false]
      · intro hd
        simp only [hd, if_true]
      · intro hd
        simp only [hd, Bool.false_eq_true, if_false]
  · intro rt ss r2 h
    exact run_closed_done ss (NewRelay rt) r2 h (fun k ch hk => by cases hk)

/-- Instance of C19: Stop on the relay of "room1". -/
theorem C19_Stop_stops_every_channel_witness :
    (∀ (id : String) (ch : channel), relayAB.channels.get? id = some ch →
      ch.finished = true → ch.done = true) ∧
    (∃ r1 : Relay, relayAB.Stop = some r1 ∧
      r1.router.stopped = true ∧ r1.router.sent = relayAB.router.sent ∧
      r1.channels.keys = relayAB.channels.keys ∧
      ∀ (id : String) (ch : channel), relayAB.channels.get? id = some ch →
        ∃ ch1 : channel, r1.channels.get? id = some ch1 ∧
          ch1.done = true ∧ ch1.clients = ch.clients ∧
          (ch.done = true → ch1 = ch) ∧
          (ch.done = false → ch1 = { ch with done := true, finished := true })) := by
  have hr : ∀ (id : String) (ch : channel), relayAB.channels.get? id = some ch →
      ch.finished = true → ch.done = true := by
    intro id ch hg
    by_cases hid : id = "room1"
    · subst hid
      have : relayAB.channels.get? "room1" = some roomAB := by decide
      rw [this] at hg
      simp only [Option.some.injEq] at hg
      rw [← hg]
      decide
    · have : relayAB.channels.get? id = none := by
        unfold relayAB
        rw [GoMap.get?_set_ne _ _ _ _ hid]
        rfl
      rw [this] at hg
      cases hg
  exact ⟨hr, (C19_Stop_stops_every_channel relayAB hr).1⟩

/-! ## Scope of the registry lock -/

theorem underLock_transfers (body : List Action) (h : ∀ a ∈ body, a.isTransfer = true) :
    underLock true (body ++ [.Unlock]) = body := by
  induction body with
  | nil => rfl
  | cons a t ih =>
    have ht := ih (fun b hb => h b (List.mem_cons_of_mem _ hb))
    have ha := h a (List.mem_cons_self _ _)
    cases a with
    | Lock => simp [Action.isTransfer] at ha
    | Unlock => simp [Action.isTransfer] at ha
    | Send dest msg => (simp only [List.cons_append, underLock, if_true]; exact congrArg _ ht)
    | Enqueue id => (simp only [List.cons_append, underLock, if_true]; exact congrArg _ ht)
    | RouterStop => simp [Action.isTransfer] at ha
    | Close id => simp [Action.isTransfer] at ha

theorem underLock_no_transfer (body : List Action)
    (h : ∀ a ∈ body, a ≠ .Lock ∧ a ≠ .Unlock) :
    underLock true (body ++ [.Unlock]) = body := by
  induction body with
  | nil => rfl
  | cons a t ih =>
    have ht := ih (fun b hb => h b (List.mem_cons_of_mem _ hb))
    have ha := h a (List.mem_cons_self _ _)
    cases a with
    | Lock => exact absurd rfl ha.1
    | Unlock => exact absurd rfl ha.2
    | Send dest msg => (simp only [List.cons_append, underLock, if_true]; exact congrArg _ ht)
    | Enqueue id => (simp only [List.cons_append, underLock, if_true]; exact congrArg _ ht)
    | RouterStop => (simp only [List.cons_append, underLock, if_true]; exact congrArg _ ht)
    | Close id => (simp only [List.cons_append, underLock, if_true]; exact congrArg _ ht)

theorem newMessageTrace_transfer (ch : channel) (m : RelayMessage) :
    ∀ a ∈ ch.newMessageTrace m, a.isTransfer = true := by
  intro a ha
  unfold channel.newMessageTrace at ha
  cases hty : m.GetType <;> rw [hty] at ha <;> simp at ha <;> rw [ha] <;> rfl

theorem newMessageTrace_sendOf (ch : channel) (m : RelayMessage) :
    (ch.newMessageTrace m).filterMap Action.sendOf = [] := by
  unfold channel.newMessageTrace
  cases m.GetType <;> rfl

/-- The actions of Process between the lock and the unlock. -/
theorem ProcessTrace_body (r : Relay) (sender : Address) (msg : Message) :
    ∃ body : List Action,
      r.ProcessTrace sender msg = .Lock :: body ++ [.Unlock] ∧
      (∀ a ∈ body, a.isTransfer = true) ∧
      (∀ r1 : Relay, r.Process sender msg = some r1 →
        r1.router.sent = r.router.sent ++ body.filterMap Action.sendOf) := by
  cases msg with
  | unknown =>
    refine ⟨[], rfl, by simp, ?_⟩
    intro r1 h
    simp only [Relay.Process, Option.some.injEq] at h
    rw [← h]; simp
  | relayMessage m =>
    by_cases hid : m.Channel = ""
    · refine ⟨[], ?_, by simp, ?_⟩
      · simp [Relay.ProcessTrace, RelayMessage.GetChannel, hid]
      · intro r1 h
        simp only [Relay.Process, RelayMessage.GetChannel, hid, if_true, Option.some.injEq] at h
        rw [← h]; simp
    · cases hg : r.channels.get? m.Channel with
      | some ch =>
        refine ⟨ch.newMessageTrace m, ?_, newMessageTrace_transfer ch m, ?_⟩
        · simp [Relay.ProcessTrace, RelayMessage.GetChannel, hid, hg]
        · intro r1 h
          simp only [Relay.Process, RelayMessage.GetChannel, hid, if_false, hg] at h
          cases hq : ch.newMessage sender m with
          | none => rw [hq] at h; simp at h
          | some ch1 =>
            rw [hq] at h
            simp only [Option.map_some', Option.some.injEq] at h
            rw [← h, store_router, newMessageTrace_sendOf]
            simp
      | none =>
        by_cases hcap : r.channels.len > MaxChannel
        · refine ⟨[.Send sender
            { Type_ := RelayMessage_JOIN_RESPONSE,
              JoinResponse := some
                { Status := JoinResponse_FAILURE, Reason := "too many channels" } }], ?_, ?_, ?_⟩
          · simp [Relay.ProcessTrace, RelayMessage.GetChannel, hid, hg, hcap]
          · intro a ha
            simp at ha
            rw [ha]; rfl
          · intro r1 h
            rw [Process_too_many r sender m hid hg hcap] at h
            simp only [Option.some.injEq] at h
            rw [← h]
            rfl
        · refine ⟨(newChannel m.Channel).newMessageTrace m, ?_,
            newMessageTrace_transfer _ m, ?_⟩
          · simp [Relay.ProcessTrace, RelayMessage.GetChannel, hid, hg, hcap]
          · intro r1 h
            obtain ⟨ch1, hq, _, _⟩ := newMessage_new m.Channel sender m
            rw [Process_new_id r sender m hid hg hcap ch1 hq] at h
            simp only [Option.some.injEq] at h
            rw [← h, newMessageTrace_sendOf]
            simp

set_option maxRecDepth 100000 in
/-- C20, as stated, fails: with 51 channels the refusal of a JOIN for a new
id is sent on the router between Lock and the deferred Unlock of Process; on
a new relay the JOIN is put on the queue of the new channel between them; and
Receive queues the LEAVE between them. -/
theorem C20_transfer_under_lock_counterexample :
    fiftyOneChannels.ProcessTrace "Z"
      (.relayMessage { Channel := "late", Type_ := RelayMessage_JOIN }) =
      [.Lock,
       .Send "Z"
         { Type_ := RelayMessage_JOIN_RESPONSE,
           JoinResponse := some
             { Status := JoinResponse_FAILURE, Reason := "too many channels" } },
       .Unlock] ∧
    noTransferUnderLock (fiftyOneChannels.ProcessTrace "Z"
      (.relayMessage { Channel := "late", Type_ := RelayMessage_JOIN })) = false ∧
    (NewRelay {}).ProcessTrace "A"
      (.relayMessage { Channel := "room1", Type_ := RelayMessage_JOIN }) =
      [.Lock, .Enqueue "room1", .Unlock] ∧
    noTransferUnderLock ((NewRelay {}).ProcessTrace "A"
      (.relayMessage { Channel := "room1", Type_ := RelayMessage_JOIN })) = false ∧
    relayAB.ReceiveTrace (.EventDown "A") = [.Lock, .Enqueue "room1", .Unlock] ∧
    noTransferUnderLock (relayAB.ReceiveTrace (.EventDown "A")) = false := by
  decide

/-- C20 amended: the registry lock is held for the whole body of Process,
Receive and Stop.  Process takes the lock first and releases it last, and
every action in between, that is the Send of the refusal or the send on the
queue of the channel, takes place while the lock is held; the sends of
Process on the router are exactly the Send actions of that body.  Receive,
for a connection-down event, takes the lock first and releases it last and
every send on a queue takes place while the lock is held.  Stop stops the
router before it takes the lock, and under the lock it only closes stop
signals: it performs no Send and no send on a queue. -/
theorem C20_lock_held_for_whole_body (r : Relay) (sender : Address) (msg : Message)
    (addr : Address) :
    (∃ body : List Action,
      r.ProcessTrace sender msg = .Lock :: body ++ [.Unlock] ∧
      underLock false (r.ProcessTrace sender msg) = body ∧
      (∀ a ∈ body, a.isTransfer = true) ∧
      (∀ r1 : Relay, r.Process sender msg = some r1 →
        r1.router.sent = r.router.sent ++ body.filterMap Action.sendOf)) ∧
    (∃ body : List Action,
      r.ReceiveTrace (.EventDown addr) = .Lock :: body ++ [.Unlock] ∧
      underLock false (r.ReceiveTrace (.EventDown addr)) = body ∧
      (∀ a ∈ body, a.isTransfer = true)) ∧
    (∃ body : List Action,
      r.StopTrace = .RouterStop :: .Lock :: body ++ [.Unlock] ∧
      underLock false r.StopTrace = body ∧
      (∀ a ∈ body, ∃ id : String, a = .Close id)) ∧
    noTransferUnderLock r.StopTrace = true := by
  have hstop : ∀ a ∈ r.channels.entries.flatMap (fun p => p.2.stopTrace),
      ∃ id : String, a = .Close id := by
    intro a ha
    rw [List.mem_flatMap] at ha
    obtain ⟨p, _, hp⟩ := ha
    unfold channel.stopTrace at hp
    by_cases hd : p.2.isDone = true
    · simp [hd] at hp
    · simp [hd] at hp
      exact ⟨_, hp⟩
  have hstop2 : underLock false r.StopTrace =
      r.channels.entries.flatMap (fun p => p.2.stopTrace) := by
    simp only [Relay.StopTrace, List.cons_append, List.nil_append, underLock]
    apply underLock_no_transfer
    intro a ha
    obtain ⟨id, hid⟩ := hstop a ha
    rw [hid]
    exact ⟨by simp, by simp⟩
  refine ⟨?_, ?_, ?_, ?_⟩
  · obtain ⟨body, h1, h2, h3⟩ := ProcessTrace_body r sender msg
    refine ⟨body, h1, ?_, h2, h3⟩
    rw [h1]
    simp only [List.cons_append, underLock]
    exact underLock_transfers body h2
  · have hb : ∀ a ∈ r.channels.entries.flatMap
        (fun p => p.2.newMessageTrace { Channel := p.1, Type_ := RelayMessage_LEAVE }),
        a.isTransfer = true := by
      intro a ha
      rw [List.mem_flatMap] at ha
      obtain ⟨p, _, hp⟩ := ha
      exact newMessageTrace_transfer _ _ a hp
    refine ⟨_, ?_, ?_, hb⟩
    · simp [Relay.ReceiveTrace]
    · simp only [Relay.ReceiveTrace, List.cons_append, List.nil_append, underLock]
      exact underLock_transfers _ hb
  · exact ⟨_, by simp [Relay.StopTrace], hstop2, hstop⟩
  · unfold noTransferUnderLock
    rw [hstop2, List.all_eq_true]
    intro a ha
    obtain ⟨id, hid⟩ := hstop a ha
    rw [hid]
    rfl

/-- Instance of C20 amended: the first JOIN for "room1" on a new relay is
put on the queue under the lock and nothing is sent. -/
theorem C20_lock_held_for_whole_body_witness :
    ∃ body : List Action,
      (NewRelay {}).ProcessTrace "A"
        (.relayMessage { Channel := "room1", Type_ := RelayMessage_JOIN }) =
        .Lock :: body ++ [.Unlock] ∧
      underLock false ((NewRelay {}).ProcessTrace "A"
        (.relayMessage { Channel := "room1", Type_ := RelayMessage_JOIN })) = body ∧
      (∀ a ∈ body, a.isTransfer = true) ∧
      (∀ r1 : Relay,
        (NewRelay {}).Process "A"
          (.relayMessage { Channel := "room1", Type_ := RelayMessage_JOIN }) = some r1 →
        r1.router.sent = (NewRelay {}).router.sent ++ body.filterMap Action.sendOf) :=
  (C20_lock_held_for_whole_body (NewRelay {}) "A"
    (.relayMessage { Channel := "room1", Type_ := RelayMessage_JOIN }) "A").1

end relay
